import Mathlib

/-!
Verification of the AmazonQ proxy gateway (Go sources) against its
natural-language specification.

The development shallowly embeds the relevant Go code:
  * `internal/amazonq/streaming.go` — the Claude SSE stream handler
    (`ClaudeStreamHandler.HandleEvent` / `Finish`);
  * `internal/amazonq/parser.go` — the binary event-stream decoder
    (`ParseHeaders`, `ParseMessage`, `ParseStream`);
  * `internal/api/middleware.go` — the non-streaming aggregator loop of
    `handleClaudeMessages`;
  * `core` conversion code (`ConvertTool`, `MergeUserMessages`,
    `ProcessHistory`, `ConvertClaudeToAmazonQRequest`).

Go strings are modelled as `List Char` (one `Char` per Go byte; all the
string constants involved are ASCII, where Go's byte indexing and
character indexing coincide).  Go `interface\x7b\x7d` values decoded from
JSON are modelled by the inductive `GoValue`.  Nondeterministic inputs of
the code (crypto-random message ids, UUIDs, the current time) are modelled
as explicit parameters or named constants; no claim depends on their
values.
-/

/-- Go strings, one `Char` per byte. -/
abbrev GoStr := List Char

/-- Conversion from a Lean string literal to the Go-string model. -/
def goStr (s : String) : GoStr := s.toList

/-- Checks that `p` is a leading segment of `s` (Go `strings.HasPrefix`). -/
def leadsWith : GoStr → GoStr → Bool
  | [], _ => true
  | _ :: _, [] => false
  | p :: ps, c :: cs => p = c && leadsWith ps cs

/-- Auxiliary scan for `goIndex`, keeping the index of the current offset. -/
def goIndexAux : GoStr → GoStr → Nat → Option Nat
  | s, pat, i =>
    if leadsWith pat s then some i
    else
      match s with
      | [] => none
      | _ :: t => goIndexAux t pat (i + 1)

/-- Go `strings.Index s pat`: offset of the first occurrence of `pat` in
`s`, `none` for Go's `-1`. -/
def goIndex (s pat : GoStr) : Option Nat := goIndexAux s pat 0

/-- Go `strings.Join xs sep`. -/
def goJoin (xs : List GoStr) (sep : GoStr) : GoStr :=
  match xs with
  | [] => []
  | [x] => x
  | x :: rest => x ++ sep ++ goJoin rest sep

/-- Total length of a list of Go strings (length of their concatenation). -/
def concatLen (xs : List GoStr) : Nat := (xs.map List.length).sum

/-- Go `interface\x7b\x7d` values produced by `encoding/json` unmarshalling.
Numbers are modelled as integers: no claim inspects a numeric payload
field, so float subtleties are irrelevant here. -/
inductive GoValue where
  | str (s : GoStr)
  | num (n : Int)
  | bool (b : Bool)
  | null
  | arr (xs : List GoValue)
  | obj (fields : List (GoStr × GoValue))

/-- Lookup in a Go `map[string]interface\x7b\x7d` (keys are unique after
JSON unmarshalling, so first-match lookup is faithful). -/
def objLookup : List (GoStr × GoValue) → GoStr → Option GoValue
  | [], _ => none
  | (k, v) :: rest, key => if k = key then some v else objLookup rest key

/-- Go `m[key].(string)` with the zero value `""` on a missing key or a
failed type assertion. -/
def objGetStr (fields : List (GoStr × GoValue)) (key : GoStr) : GoStr :=
  match objLookup fields key with
  | some (.str s) => s
  | _ => []

/-- Go `m[key].(bool)` with the zero value `false` on failure. -/
def objGetBool (fields : List (GoStr × GoValue)) (key : GoStr) : Bool :=
  match objLookup fields key with
  | some (.bool b) => b
  | _ => false

/-- Whether a decoded JSON value is an object (Go type assertion
`payload.(map[string]interface\x7b\x7d)` succeeds). -/
def isObjValue : GoValue → Bool
  | .obj _ => true
  | _ => false

mutual
/-- Model of Go `json.Marshal` on a decoded JSON value (compact form).
The exact escaping and key ordering of the Go library are not reproduced;
no claim inspects the serialized text, only that it is some string. -/
def goMarshal : GoValue → GoStr
  | .str s => '"' :: (s ++ ['"'])
  | .num n => (toString n).toList
  | .bool true => goStr "true"
  | .bool false => goStr "false"
  | .null => goStr "null"
  | .arr xs => '[' :: (goMarshalList xs ++ [']'])
  | .obj fs => '\x7b' :: (goMarshalObj fs ++ ['\x7d'])

/-- Serializes the elements of a JSON array, comma separated. -/
def goMarshalList : List GoValue → GoStr
  | [] => []
  | [x] => goMarshal x
  | x :: y :: rest => goMarshal x ++ ',' :: goMarshalList (y :: rest)

/-- Serializes the fields of a JSON object, comma separated. -/
def goMarshalObj : List (GoStr × GoValue) → GoStr
  | [] => []
  | [(k, v)] => '"' :: (k ++ '"' :: ':' :: goMarshal v)
  | (k, v) :: f :: rest =>
      ('"' :: (k ++ '"' :: ':' :: goMarshal v)) ++ ',' :: goMarshalObj (f :: rest)
end

/-! ### The Claude SSE stream handler (`streaming.go`) -/

/-- `ThinkingStartTag` from `streaming.go`. -/
def thinkingStartTag : GoStr := goStr "<thinking>"

/-- `ThinkingEndTag` from `streaming.go`. -/
def thinkingEndTag : GoStr := goStr "</thinking>"

/-- The kind of content block opened by a `content_block_start` SSE event
(`BuildContentBlockStart` with `"text"`/`"thinking"`, or
`BuildToolUseStart`, which also produces a `content_block_start`). -/
inductive BlockKind where
  | text
  | thinking
  | toolUse (id name : GoStr)
deriving DecidableEq

/-- The SSE events produced by the handler, one constructor per `Build*`
function of `parser.go`; constructor arguments are exactly the arguments
passed to the corresponding builder.  `messageStop` stands for the
combined `message_delta` + `message_stop` string of `BuildMessageStop`. -/
inductive SSE where
  | messageStart (model : GoStr) (inputTokens : Nat) (messageID : GoStr)
  | contentBlockStart (index : Int) (block : BlockKind)
  | contentBlockDelta (index : Int) (text : GoStr)
  | toolUseInputDelta (index : Int) (pjson : GoStr)
  | contentBlockStop (index : Int)
  | ping
  | messageStop (inputTokens outputTokens : Nat) (stopReason : Option GoStr)
deriving DecidableEq

/-- `GenerateMessageID` draws crypto-random bytes; modelled as a fixed
ASCII constant, since no claim depends on the id's value. -/
def generateMessageID : GoStr := goStr "msg_000000000000000000000000000"

/-- The `ClaudeStreamHandler` struct of `streaming.go`. -/
structure Handler where
  model : GoStr
  inputTokens : Nat
  responseBuffer : List GoStr
  contentBlockIndex : Int
  contentBlockStarted : Bool
  contentBlockStartSent : Bool
  contentBlockStopSent : Bool
  messageStartSent : Bool
  conversationID : GoStr
  messageID : GoStr
  currentToolUse : Option (GoStr × GoStr)
  toolInputBuffer : List GoStr
  toolUseID : GoStr
  toolName : GoStr
  processedToolUseIDs : List GoStr
  allToolInputs : List GoStr
  inThinkBlock : Bool
  thinkBuffer : GoStr
  pingPending : Bool
deriving DecidableEq

/-- `NewClaudeStreamHandler`. -/
def newHandler (model : GoStr) (inputTokens : Nat) : Handler :=
  { model := model
    inputTokens := inputTokens
    responseBuffer := []
    contentBlockIndex := -1
    contentBlockStarted := false
    contentBlockStartSent := false
    contentBlockStopSent := false
    messageStartSent := false
    conversationID := []
    messageID := []
    currentToolUse := none
    toolInputBuffer := []
    toolUseID := []
    toolName := []
    processedToolUseIDs := []
    allToolInputs := []
    inThinkBlock := false
    thinkBuffer := []
    pingPending := false }

/-- State of the text-scanning loop in `HandleEvent`: the handler, the
loop variable `pos`, and the events accumulated so far. -/
structure ScanSt where
  h : Handler
  pos : Nat
  events : List SSE

/-- The repeated "open a text content block" step of `HandleEvent`
(lines 112-122 and 149-158 of `streaming.go`): if no block-start has been
sent, bump the index, emit `content_block_start` of type text, and fire
the pending ping right after it. -/
def openTextBlock (h : Handler) : Handler × List SSE :=
  if !h.contentBlockStartSent then
    let idx := h.contentBlockIndex + 1
    let ha := { h with contentBlockIndex := idx,
                       contentBlockStartSent := true,
                       contentBlockStarted := true }
    if ha.pingPending then
      ({ ha with pingPending := false },
       [SSE.contentBlockStart idx .text, SSE.ping])
    else (ha, [SSE.contentBlockStart idx .text])
  else (h, ([] : List SSE))

/-- The "open a thinking content block" step of `HandleEvent`
(lines 134-143 of `streaming.go`): always bumps the index and emits the
start, firing the pending ping right after it. -/
def openThinkingBlock (h : Handler) : Handler × List SSE :=
  let idx2 := h.contentBlockIndex + 1
  let h3 := { h with contentBlockIndex := idx2,
                     contentBlockStartSent := true,
                     contentBlockStarted := true,
                     contentBlockStopSent := false }
  if h3.pingPending then
    ({ h3 with pingPending := false },
     [SSE.contentBlockStart idx2 .thinking, SSE.ping])
  else (h3, [SSE.contentBlockStart idx2 .thinking])

/-- The composite step taken when a `<thinking>` start tag is found
(lines 109-144 of `streaming.go`): flush any text before the tag (opening
a text block if none is open), close the open block, then open the
thinking block and enter it. -/
def thinkOpenStep (h : Handler) (beforeText : GoStr) : Handler × List SSE :=
  match
    (if beforeText ≠ [] then
      match openTextBlock h with
      | (ha, ev0) =>
        ({ ha with responseBuffer := ha.responseBuffer ++ [beforeText] },
         ev0 ++ [SSE.contentBlockDelta ha.contentBlockIndex beforeText])
    else (h, ([] : List SSE)))
  with
  | (h1, ev1) =>
    match
      (if h1.contentBlockStartSent then
        ({ h1 with contentBlockStopSent := true, contentBlockStartSent := false },
         [SSE.contentBlockStop h1.contentBlockIndex])
      else (h1, ([] : List SSE)))
    with
    | (h2, ev2) =>
      match openThinkingBlock h2 with
      | (h3, ev3) =>
        ({ h3 with inThinkBlock := true }, ev1 ++ ev2 ++ ev3)

/-- One translation of the `for pos < len(h.ThinkBuffer)` loop of
`HandleEvent` (case `assistantResponseEvent`).  Fuel decreases once per
iteration; every iteration that recurses advances `pos` by at least the
tag length while leaving `thinkBuffer` unchanged, so fuel
`thinkBuffer.length + 1` is never exhausted. -/
def scanLoop : Nat → ScanSt → ScanSt
  | 0, st => st
  | fuel + 1, st =>
    let h := st.h
    if st.pos < h.thinkBuffer.length then
      if !h.inThinkBlock then
        match goIndex (h.thinkBuffer.drop st.pos) thinkingStartTag with
        | some rel =>
          -- a `<thinking>` tag was found at absolute offset `rel + pos`
          match thinkOpenStep h ((h.thinkBuffer.drop st.pos).take rel) with
          | (h4, evs) =>
            scanLoop fuel
              ⟨h4, rel + st.pos + thinkingStartTag.length, st.events ++ evs⟩
        | none =>
          -- no `<thinking>`: emit the remaining content as text and break
          let remaining := h.thinkBuffer.drop st.pos
          match openTextBlock h with
          | (h1, ev1) =>
            ⟨{ h1 with responseBuffer := h1.responseBuffer ++ [remaining],
                       thinkBuffer := [] },
             st.pos,
             st.events ++ ev1 ++ [SSE.contentBlockDelta h1.contentBlockIndex remaining]⟩
      else
        match goIndex (h.thinkBuffer.drop st.pos) thinkingEndTag with
        | some rel =>
          -- a `</thinking>` tag was found; close the thinking block
          let thinkingText := (h.thinkBuffer.drop st.pos).take rel
          let ev1 :=
            if thinkingText ≠ [] then
              [SSE.contentBlockDelta h.contentBlockIndex thinkingText]
            else []
          scanLoop fuel
            ⟨{ h with contentBlockStopSent := true,
                      contentBlockStartSent := false,
                      inThinkBlock := false },
             rel + st.pos + thinkingEndTag.length,
             st.events ++ ev1 ++ [SSE.contentBlockStop h.contentBlockIndex]⟩
        | none =>
          -- no `</thinking>`: emit the rest as thinking content and break
          let remaining := h.thinkBuffer.drop st.pos
          ⟨{ h with thinkBuffer := [] },
           st.pos,
           st.events ++ [SSE.contentBlockDelta h.contentBlockIndex remaining]⟩
    else st

/-- The `if content != ""` body of the `assistantResponseEvent` case:
append the fragment to the scan buffer, run the scan loop, then keep any
unprocessed tail of the buffer. -/
def handleAssistantText (h : Handler) (content : GoStr) : Handler × List SSE :=
  if content ≠ [] then
    let h0 := { h with thinkBuffer := h.thinkBuffer ++ content }
    match scanLoop (h0.thinkBuffer.length + 1) ⟨h0, 0, []⟩ with
    | ⟨hf, pos, events⟩ =>
      let tb := if pos < hf.thinkBuffer.length then hf.thinkBuffer.drop pos else []
      ({ hf with thinkBuffer := tb }, events)
  else (h, [])

/-- The `initial-response` block of `HandleEvent`. -/
def stepInitialResponse (h : Handler) (eventType : GoStr)
    (fields : List (GoStr × GoValue)) : Handler × List SSE :=
  if eventType = goStr "initial-response" then
    if !h.messageStartSent then
      let c0 := objGetStr fields (goStr "conversationId")
      let c1 := if c0 = [] then h.conversationID else c0
      let c2 := if c1 = [] then goStr "unknown" else c1
      ({ h with conversationID := c2, messageID := generateMessageID,
                messageStartSent := true, pingPending := true },
       [SSE.messageStart h.model h.inputTokens generateMessageID])
    else (h, [])
  else (h, [])

/-- The `assistantResponseEvent` block of `HandleEvent`. -/
def stepAssistantResponse (h : Handler) (eventType : GoStr)
    (fields : List (GoStr × GoValue)) : Handler × List SSE :=
  if eventType = goStr "assistantResponseEvent" then
    let content := objGetStr fields (goStr "content")
    match
      (if h.currentToolUse ≠ none ∧ !h.contentBlockStopSent then
        ({ h with contentBlockStopSent := true, currentToolUse := none },
         [SSE.contentBlockStop h.contentBlockIndex])
      else (h, ([] : List SSE)))
    with
    | (h1, ev1) =>
      match handleAssistantText h1 content with
      | (h2, ev2) => (h2, ev1 ++ ev2)
  else (h, [])

/-- The fragment serialization in the `toolUseEvent` case: a string input
is taken verbatim, anything else is JSON-marshalled. -/
def toolInputFragment : GoValue → GoStr
  | .str s => s
  | v => goMarshal v

/-- The "start a new tool use" step of `HandleEvent` (lines 209-236 of
`streaming.go`): close any open block, open the tool_use content block
(firing the pending ping right after it), and record the tool identity. -/
def toolOpenStep (h : Handler) (toolUseID toolName : GoStr) : Handler × List SSE :=
  match
    (if h.contentBlockStartSent ∧ !h.contentBlockStopSent then
      ({ h with contentBlockStopSent := true },
       [SSE.contentBlockStop h.contentBlockIndex])
    else (h, ([] : List SSE)))
  with
  | (ha, ev0) =>
    let idx := ha.contentBlockIndex + 1
    let hb := { ha with processedToolUseIDs := ha.processedToolUseIDs ++ [toolUseID],
                        contentBlockIndex := idx }
    match
      (if hb.pingPending then
        ({ hb with pingPending := false },
         ev0 ++ [SSE.contentBlockStart idx (.toolUse toolUseID toolName), SSE.ping])
      else
        (hb, ev0 ++ [SSE.contentBlockStart idx (.toolUse toolUseID toolName)]))
    with
    | (hc, evc) =>
      ({ hc with contentBlockStarted := true,
                 currentToolUse := some (toolUseID, toolName),
                 toolUseID := toolUseID, toolName := toolName,
                 toolInputBuffer := [],
                 contentBlockStopSent := false,
                 contentBlockStartSent := true }, evc)

/-- The `toolUseEvent` block of `HandleEvent`. -/
def stepToolUse (h : Handler) (eventType : GoStr)
    (fields : List (GoStr × GoValue)) : Handler × List SSE :=
  if eventType = goStr "toolUseEvent" then
    let toolUseID := objGetStr fields (goStr "toolUseId")
    let toolName := objGetStr fields (goStr "name")
    -- Go `payloadMap["input"]` is the nil interface both on a missing key
    -- and on a JSON null value
    let toolInput : Option GoValue :=
      match objLookup fields (goStr "input") with
      | some .null => none
      | v => v
    let isStop := objGetBool fields (goStr "stop")
    match
      (if toolUseID ≠ [] ∧ toolName ≠ [] ∧ h.currentToolUse = none then
        toolOpenStep h toolUseID toolName
      else (h, ([] : List SSE)))
    with
    | (h1, ev1) =>
      match
        (match h1.currentToolUse, toolInput with
        | some _, some v =>
          let fragment := toolInputFragment v
          ({ h1 with toolInputBuffer := h1.toolInputBuffer ++ [fragment] },
           [SSE.toolUseInputDelta h1.contentBlockIndex fragment])
        | _, _ => (h1, ([] : List SSE)))
      with
      | (h2, ev2) =>
        match
          (if isStop ∧ h2.currentToolUse ≠ none then
            let fullInput := goJoin h2.toolInputBuffer []
            ({ h2 with allToolInputs := h2.allToolInputs ++ [fullInput],
                       contentBlockStopSent := true,
                       contentBlockStarted := false,
                       currentToolUse := none,
                       toolUseID := [], toolName := [],
                       toolInputBuffer := [] },
             [SSE.contentBlockStop h2.contentBlockIndex])
          else (h2, ([] : List SSE)))
        with
        | (h3, ev3) => (h3, ev1 ++ ev2 ++ ev3)
  else (h, [])

/-- The `assistantResponseEnd` block of `HandleEvent`. -/
def stepAssistantEnd (h : Handler) (eventType : GoStr) : Handler × List SSE :=
  if eventType = goStr "assistantResponseEnd" then
    if h.contentBlockStarted ∧ !h.contentBlockStopSent then
      ({ h with contentBlockStopSent := true },
       [SSE.contentBlockStop h.contentBlockIndex])
    else (h, [])
  else (h, [])

/-- `ClaudeStreamHandler.HandleEvent`: a non-object payload fails the map
type assertion and the call returns immediately; otherwise the four event
blocks run in sequence (their guards are mutually exclusive). -/
def handleEvent (h : Handler) (eventType : GoStr) (payload : GoValue) :
    Handler × List SSE :=
  match payload with
  | .obj fields =>
    match stepInitialResponse h eventType fields with
    | (h1, ev1) =>
      match stepAssistantResponse h1 eventType fields with
      | (h2, ev2) =>
        match stepToolUse h2 eventType fields with
        | (h3, ev3) =>
          match stepAssistantEnd h3 eventType with
          | (h4, ev4) => (h4, ev1 ++ ev2 ++ ev3 ++ ev4)
  | _ => (h, [])

/-- `ClaudeStreamHandler.Finish`. -/
def finish (h : Handler) : Handler × List SSE :=
  match
    (if h.contentBlockStarted ∧ !h.contentBlockStopSent then
      ({ h with contentBlockStopSent := true },
       [SSE.contentBlockStop h.contentBlockIndex])
    else (h, ([] : List SSE)))
  with
  | (h1, ev1) =>
    let ot0 := (concatLen h1.responseBuffer + concatLen h1.allToolInputs) / 4
    let outputTokens := if ot0 < 1 then 1 else ot0
    (h1, ev1 ++ [SSE.messageStop h1.inputTokens outputTokens none])

/-- Feeds a list of classified events to the handler, accumulating the
emitted SSE events (the loop of `ProcessEventStream`). -/
def runHandler (h : Handler) : List (GoStr × GoValue) → Handler × List SSE
  | [] => (h, [])
  | (ty, pl) :: rest =>
    match handleEvent h ty pl with
    | (h1, ev1) =>
      match runHandler h1 rest with
      | (h2, ev2) => (h2, ev1 ++ ev2)

/-- A whole run: a fresh handler processes the classified events and then
`Finish` is called once (as `ProcessEventStream` does). -/
def runAll (model : GoStr) (inputTokens : Nat)
    (events : List (GoStr × GoValue)) : List SSE :=
  match runHandler (newHandler model inputTokens) events with
  | (hf, out) =>
    match finish hf with
    | (_, fin) => out ++ fin

/-! ### Trace observations used by the claims -/

/-- True for the `content_block_start` events (including tool-use starts,
which `BuildToolUseStart` also serializes as `content_block_start`). -/
def isBlockStartEv : SSE → Bool
  | .contentBlockStart _ _ => true
  | _ => false

/-- True for `content_block_stop` events. -/
def isBlockStopEv : SSE → Bool
  | .contentBlockStop _ => true
  | _ => false

/-- True for `message_start` events. -/
def isMessageStartEv : SSE → Bool
  | .messageStart _ _ _ => true
  | _ => false

/-- True for `ping` events. -/
def isPingEv : SSE → Bool
  | .ping => true
  | _ => false

/-- Index of the first event satisfying `p`, if any. -/
def firstIdxP (p : SSE → Bool) : List SSE → Option Nat
  | [] => none
  | e :: rest => if p e then some 0 else (firstIdxP p rest).map (· + 1)

/-- Indices carried by the `content_block_start` events of a trace, in
emission order. -/
def blockStartIndices : List SSE → List Int
  | [] => []
  | .contentBlockStart i _ :: rest => i :: blockStartIndices rest
  | _ :: rest => blockStartIndices rest

/-- The claim C6 ordering observation: either no `content_block_start`
occurs, or a `message_start` occurs at a strictly earlier position than
the first `content_block_start`. -/
def msPrecedesFirstBS (out : List SSE) : Bool :=
  match firstIdxP isBlockStartEv out with
  | none => true
  | some k =>
    match firstIdxP isMessageStartEv out with
    | some j => decide (j < k)
    | none => false

/-- The claim C7 observation: exactly one ping, placed immediately after
the first `content_block_start`. -/
def pingRightAfterFirstBS (out : List SSE) : Bool :=
  match firstIdxP isBlockStartEv out with
  | none => false
  | some k => decide (out.countP isPingEv = 1) && decide (out.get? (k + 1) = some SSE.ping)

/-- Relation between the pending-ping flag before a trace segment, the
segment, and the flag after it: while the ping is pending, the segment
either opens no block and emits no ping (flag still pending) or fires
exactly one ping immediately after its first `content_block_start`
(clearing the flag); with the flag clear, no ping is ever emitted and the
flag stays clear. -/
def pingRel (p : Bool) (δ : List SSE) (q : Bool) : Prop :=
  if p then
    match firstIdxP isBlockStartEv δ with
    | none => q = true ∧ δ.countP isPingEv = 0
    | some k => q = false ∧ δ.countP isPingEv = 1 ∧ δ.get? (k + 1) = some SSE.ping
  else q = false ∧ δ.countP isPingEv = 0

/-! ### The binary event-stream decoder (`parser.go`) -/

/-- Big-endian `uint32` from the first four bytes (all call sites first
check that at least four bytes are available). -/
def readU32 : List Nat → Nat
  | b0 :: b1 :: b2 :: b3 :: _ => ((b0 * 256 + b1) * 256 + b2) * 256 + b3
  | _ => 0

/-- Big-endian `uint16` from the first two bytes. -/
def readU16 : List Nat → Nat
  | b0 :: b1 :: _ => b0 * 256 + b1
  | _ => 0

/-- Go `uint32` subtraction with wraparound. -/
def u32sub (a b : Nat) : Nat := (a + 4294967296 - b % 4294967296) % 4294967296

/-- One header of an event-stream message: name bytes and value bytes
(the value-type byte is read but ignored by `ParseHeaders`, which decodes
every value as a string). -/
abbrev RawHeaders := List (List Nat × List Nat)

/-- Loop body of `ParseHeaders`: the list argument is the not yet consumed
part of the headers block.  Fuel decreases once per iteration; every
iteration consumes at least four bytes, so fuel `data.length` is never
exhausted.  Header order is kept (Go stores them in a map whose keys are
unique in well-formed frames). -/
def parseHeadersLoop : Nat → List Nat → RawHeaders
  | 0, _ => []
  | _ + 1, [] => []
  | fuel + 1, nameLength :: rest =>
    if nameLength > rest.length then []
    else
      let name := rest.take nameLength
      match rest.drop nameLength with
      | [] => []
      | _valueType :: r2 =>
        if r2.length < 2 then []
        else
          let valueLength := readU16 r2
          let r3 := r2.drop 2
          if valueLength > r3.length then []
          else (name, r3.take valueLength) :: parseHeadersLoop fuel (r3.drop valueLength)

/-- `ParseHeaders`. -/
def parseHeaders (headersData : List Nat) : RawHeaders :=
  parseHeadersLoop headersData.length headersData

/-- A decoded frame (`EventStreamMessage`).  The payload is kept as its
raw bytes: `ParseMessage` attempts `json.Unmarshal` on it and falls back
to the raw string on failure, which never affects control flow, so the
decoded form is not modelled. -/
structure EventStreamMessage where
  headers : RawHeaders
  payload : List Nat
  totalLength : Nat
deriving DecidableEq

/-- Result of `ParseMessage`: a decoded message, a returned error, or a
Go runtime panic (slice bounds out of range). -/
inductive ParseOutcome where
  | ok (m : EventStreamMessage)
  | err
  | panicked
deriving DecidableEq

/-- `ParseMessage`.  The two boundary tests mirror Go's slice-bounds
checks: `data[12 : 12+headersLength]` and `data[payloadStart:payloadEnd]`
panic when the bounds are out of range or inverted (`ParseStream` hands
`ParseMessage` a slice whose length equals the declared total length). -/
def parseMessage (data : List Nat) : ParseOutcome :=
  if data.length < 16 then .err
  else
    let totalLength := readU32 data
    if data.length < totalLength then .err
    else
      let headersLength := readU32 (data.drop 4)
      if data.length < 12 + headersLength then .panicked
      else
        let headers := parseHeaders ((data.drop 12).take headersLength)
        let payloadStart := 12 + headersLength
        let payloadEnd := u32sub totalLength 4
        if payloadEnd < payloadStart ∨ data.length < payloadEnd then .panicked
        else
          .ok ⟨headers, (data.drop payloadStart).take (payloadEnd - payloadStart),
               totalLength⟩

/-- Outcome of draining the whole input through `ParseStream`'s buffer
loop: normal termination with the decoded messages and the unconsumed
tail, a panic escaping from `ParseMessage`, or divergence (the loop makes
no progress on a frame declaring total length 0). -/
inductive StreamOutcome where
  | done (msgs : List EventStreamMessage) (leftover : List Nat)
  | panicked (msgs : List EventStreamMessage)
  | diverged (msgs : List EventStreamMessage)
deriving DecidableEq

/-- The inner `for len(buffer) >= 12` loop of `ParseStream`, applied to
the fully accumulated input (reads only grow the buffer, so feeding the
bytes chunk by chunk decodes the same frame sequence).  Fuel decreases
once per iteration; every iteration that consumes a frame removes at
least one byte unless the frame declares total length 0, in which case
the Go loop repeats forever and the model reports divergence. -/
def processBuffer : Nat → List Nat → List EventStreamMessage → StreamOutcome
  | 0, _, acc => .diverged acc
  | fuel + 1, buffer, acc =>
    if buffer.length < 12 then .done acc buffer
    else
      let totalLength := readU32 buffer
      if buffer.length < totalLength then .done acc buffer
      else
        let messageData := buffer.take totalLength
        let rest := buffer.drop totalLength
        match parseMessage messageData with
        | .panicked => .panicked acc
        | .err => processBuffer fuel rest acc
        | .ok m => processBuffer fuel rest (acc ++ [m])

/-- `ParseStream` on a complete input byte sequence. -/
def parseStreamModel (input : List Nat) : StreamOutcome :=
  processBuffer (input.length + 1) input []

/-! ### The non-streaming aggregator (`middleware.go`, `handleClaudeMessages`) -/

/-- A Go `map[string]interface\x7b\x7d` used as a mutable content block. -/
abbrev GoObj := List (GoStr × GoValue)

/-- Go map assignment `m[key] = v`: replace the existing entry or append
a new one. -/
def objSet : GoObj → GoStr → GoValue → GoObj
  | [], key, v => [(key, v)]
  | (k, w) :: rest, key, v =>
    if k = key then (k, v) :: rest else (k, w) :: objSet rest key v

/-- Go `delete(m, key)`. -/
def objDelete : GoObj → GoStr → GoObj
  | [], _ => []
  | (k, w) :: rest, key => if k = key then rest else (k, w) :: objDelete rest key

/-- Go `v == "lit"` on an `interface\x7b\x7d` value: true exactly when the
dynamic type is string and the contents agree. -/
def valIsStr (v : Option GoValue) (s : GoStr) : Bool :=
  match v with
  | some (.str t) => t = s
  | _ => false

/-- Go `m[key].(string)` with default `""` (used for `block["text"]` and
`block["partial_json"]` accumulation). -/
def objGetStrD (m : GoObj) (key : GoStr) : GoStr :=
  match objLookup m key with
  | some (.str s) => s
  | _ => []

/-- The aggregator events, one constructor per `dtype` branch of the
non-streaming loop, carrying the fields the branch reads after its type
assertions (`data["index"]`, `data["content_block"]`, `data["delta"]`,
`data["usage"]`, `data["delta"]["stop_reason"]`).  The SSE serialization
round trip (`FormatSSE` followed by the `data:`-line JSON parse) is not
modelled. -/
inductive AggEvent where
  | blockStart (idx : Nat) (block : GoObj)
  | blockDelta (idx : Nat) (delta : GoObj)
  | blockStop (idx : Nat)
  | messageDelta (usage : List (GoStr × Int)) (stopReason : Option GoStr)
  | other

/-- Aggregator state of `handleClaudeMessages` (non-streaming branch). -/
structure AggState where
  finalContent : List (Option GoObj)
  usage : List (GoStr × Int)
  stopReason : Option GoStr

/-- Updates one usage counter (Go `usage[k] = int(val)`). -/
def usageSet : List (GoStr × Int) → GoStr → Int → List (GoStr × Int)
  | [], key, v => [(key, v)]
  | (k, w) :: rest, key, v =>
    if k = key then (k, v) :: rest else (k, w) :: usageSet rest key v

/-- One iteration of the aggregator loop.  `none` models a Go runtime
panic: `finalContent[idx]` in the delta and stop branches is indexed
without a bounds check.  The `parse` parameter abstracts
`json.Unmarshal` of a string into `map[string]interface\x7b\x7d`
(returning `none` exactly when the Go call returns an error). -/
def aggStep (parse : GoStr → Option GoObj) (st : AggState) :
    AggEvent → Option AggState
  | .blockStart idx block =>
    let fc := st.finalContent ++ List.replicate (idx + 1 - st.finalContent.length) none
    some { st with finalContent := fc.set idx (some block) }
  | .blockDelta idx delta =>
    if idx < st.finalContent.length then
      match st.finalContent.getD idx none with
      | none => some st
      | some block =>
        if valIsStr (objLookup delta (goStr "type")) (goStr "text_delta") then
          match objLookup delta (goStr "text") with
          | some (.str text) =>
            let currentText := objGetStrD block (goStr "text")
            let fc := st.finalContent.set idx
                (some (objSet block (goStr "text") (.str (currentText ++ text))))
            some { st with finalContent := fc }
          | _ => some st
        else if valIsStr (objLookup delta (goStr "type")) (goStr "input_json_delta") then
          match objLookup delta (goStr "partial_json") with
          | some (.str pj) =>
            let currentJSON := objGetStrD block (goStr "partial_json")
            let fc := st.finalContent.set idx
                (some (objSet block (goStr "partial_json") (.str (currentJSON ++ pj))))
            some { st with finalContent := fc }
          | _ => some st
        else some st
    else none
  | .blockStop idx =>
    if idx < st.finalContent.length then
      match st.finalContent.getD idx none with
      | none => some st
      | some block =>
        if valIsStr (objLookup block (goStr "type")) (goStr "tool_use") then
          match objLookup block (goStr "partial_json") with
          | some (.str pj) =>
            let block1 :=
              match parse pj with
              | some input => objSet block (goStr "input") (.obj input)
              | none => block
            -- the delete is unconditional in the source: it runs on parse
            -- failure as well
            let block2 := objDelete block1 (goStr "partial_json")
            some { st with finalContent := st.finalContent.set idx (some block2) }
          | _ => some st
        else some st
    else none
  | .messageDelta usageData sr =>
    let newUsage := usageData.foldl (fun u kv => usageSet u kv.1 kv.2) st.usage
    let newSr := match sr with | some s => some s | none => st.stopReason
    some { st with usage := newUsage, stopReason := newSr }
  | .other => some st

/-- The whole aggregator loop; a panic in any iteration aborts it. -/
def runAgg (parse : GoStr → Option GoObj) :
    AggState → List AggEvent → Option AggState
  | st, [] => some st
  | st, e :: rest =>
    match aggStep parse st e with
    | some st1 => runAgg parse st1 rest
    | none => none

/-- The final content compaction: `nil` slots are dropped, order kept. -/
def filteredContent (st : AggState) : List GoObj :=
  st.finalContent.filterMap id

/-- Observation used in the C4 statements: whether an optional value is
present. -/
def hasVal : Option GoValue → Bool
  | some _ => true
  | none => false

/-! ### The request transcoder (`core` package) -/

/-- `EnvState`. -/
structure EnvState where
  operatingSystem : GoStr
  currentWorkingDirectory : GoStr

/-- `ToolResultContent`. -/
structure ToolResultContent where
  text : GoStr

/-- `ToolResult`. -/
structure ToolResult where
  toolUseID : GoStr
  content : List ToolResultContent
  status : GoStr

/-- `ImageBytes`. -/
structure ImageBytes where
  bytes : GoStr
deriving DecidableEq

/-- `AmazonQImage`. -/
structure AmazonQImage where
  format : GoStr
  source : ImageBytes
deriving DecidableEq

/-- `ToolSpecification` (the input schema is the decoded JSON value). -/
structure ToolSpecification where
  name : GoStr
  description : GoStr
  inputSchema : GoValue

/-- `AmazonQTool`. -/
structure AmazonQTool where
  toolSpecification : ToolSpecification

/-- `UserInputMessageContext` (`tools`/`toolResults` empty stand for the
absent JSON fields of the Go zero values). -/
structure UserInputMessageContext where
  envState : EnvState
  tools : List AmazonQTool
  toolResults : List ToolResult

/-- `UserInputMessage`. -/
structure UserInputMessage where
  content : GoStr
  userInputMessageContext : UserInputMessageContext
  origin : GoStr
  modelID : GoStr
  images : List AmazonQImage

/-- `ToolUse` (an assistant history tool invocation). -/
structure ToolUse where
  toolUseID : GoStr
  name : GoStr
  input : GoObj

/-- `AssistantResponseMessage`. -/
structure AssistantResponseMessage where
  messageID : GoStr
  content : GoStr
  toolUses : List ToolUse

/-- `HistoryEntry`: exactly one of the two optional pointers is set by
`ProcessHistory`, modelled as a sum. -/
inductive HistoryEntry where
  | user (m : UserInputMessage)
  | assistant (m : AssistantResponseMessage)

/-- `CurrentMessage`. -/
structure CurrentMessage where
  userInputMessage : UserInputMessage

/-- `ConversationState`. -/
structure ConversationState where
  conversationID : GoStr
  history : List HistoryEntry
  currentMessage : CurrentMessage
  chatTriggerType : GoStr

/-- `AmazonQRequest`. -/
structure AmazonQRequest where
  conversationState : ConversationState

/-- `ClaudeTool`. -/
structure ClaudeTool where
  name : GoStr
  description : GoStr
  inputSchema : GoValue

/-- `ThinkingConfig`. -/
structure ThinkingConfig where
  type : GoStr
  budgetTokens : Int

/-- `ClaudeMessage` (content is a raw decoded JSON value: a string or a
block list). -/
structure ClaudeMessage where
  role : GoStr
  content : GoValue

/-- `ClaudeRequest` (fields irrelevant to the modelled code paths are
kept for completeness). -/
structure ClaudeRequest where
  model : GoStr
  messages : List ClaudeMessage
  maxTokens : Int
  tools : List ClaudeTool
  stream : Bool
  system : Option GoValue
  thinking : Option ThinkingConfig

/-- `uuid.New()` draws random bytes; modelled as a fixed constant since
no claim inspects a generated id. -/
def modelUUID : GoStr := goStr "00000000-0000-4000-8000-000000000000"

/-- Go `strings.ToLower` restricted to the ASCII strings compared here. -/
def goToLower (s : GoStr) : GoStr := s.map Char.toLower

/-- `IsThinkingModeEnabled`. -/
def isThinkingModeEnabled : Option ThinkingConfig → Bool
  | none => false
  | some c => goToLower c.type = goStr "enabled"

/-- `GetThinkingBudgetTokens`. -/
def getThinkingBudgetTokens : Option ThinkingConfig → Int
  | none => 16000
  | some c => if c.budgetTokens ≤ 0 then 16000 else c.budgetTokens

/-- `BuildThinkingHint` (`strconv.Itoa` is decimal integer printing). -/
def buildThinkingHint (budgetTokens : Int) : GoStr :=
  goStr "<thinking_mode>interleaved</thinking_mode><max_thinking_length>"
    ++ (toString budgetTokens).toList ++ goStr "</max_thinking_length>"

/-- Go `unicode.IsSpace` on the ASCII range used by `strings.TrimSpace`
(the constants involved are ASCII). -/
def goIsSpace (c : Char) : Bool :=
  c = ' ' || c = '\t' || c = '\n' || c = '\x0b' || c = '\x0c' || c = '\r'

/-- Go `strings.TrimSpace`. -/
def goTrimSpace (s : GoStr) : GoStr :=
  ((s.dropWhile goIsSpace).reverse.dropWhile goIsSpace).reverse

/-- Go `strings.HasSuffix`. -/
def goEndsWith (s t : GoStr) : Bool := leadsWith t.reverse s.reverse

/-- `AppendThinkingHint`. -/
def appendThinkingHint (text hint : GoStr) : GoStr :=
  let normalized := goTrimSpace text
  if goEndsWith normalized hint then text
  else if text = [] then hint
  else
    let sep :=
      if !goEndsWith text (goStr "\n") && !goEndsWith text (goStr "\r") then goStr "\n"
      else []
    text ++ sep ++ hint

/-- `ContainsToolContent`. -/
def containsToolContent : GoValue → Bool
  | .arr blocks =>
    blocks.any fun b =>
      match b with
      | .obj m =>
        valIsStr (objLookup m (goStr "type")) (goStr "tool_result")
          || valIsStr (objLookup m (goStr "type")) (goStr "tool_use")
      | _ => false
  | _ => false

/-- The text collected from one content block by `ExtractTextFromContent`. -/
def textOfBlock (b : GoValue) : Option GoStr :=
  match b with
  | .obj m =>
    if valIsStr (objLookup m (goStr "type")) (goStr "text") then
      match objLookup m (goStr "text") with
      | some (.str t) => some t
      | _ => none
    else none
  | _ => none

/-- `ExtractTextFromContent`. -/
def extractTextFromContent : GoValue → GoStr
  | .str v => v
  | .arr blocks => goJoin (blocks.filterMap textOfBlock) (goStr "\n")
  | _ => []

/-- The suffix of `s` after its last `'/'` — `strings.Split(s, "/")`'s
last element when `s` contains a slash. -/
def afterLastSlash (s : GoStr) : GoStr :=
  (s.reverse.takeWhile (fun c => c ≠ '/')).reverse

/-- The image extracted from one content block by
`ExtractImagesFromContent`, if any. -/
def imageOfBlock (b : GoValue) : Option AmazonQImage :=
  match b with
  | .obj m =>
    if valIsStr (objLookup m (goStr "type")) (goStr "image") then
      match objLookup m (goStr "source") with
      | some (.obj src) =>
        if valIsStr (objLookup src (goStr "type")) (goStr "base64") then
          let mediaType :=
            match objLookup src (goStr "media_type") with
            | some (.str mt) => mt
            | _ => goStr "image/png"
          let format :=
            if mediaType.any (fun c => c = '/') then afterLastSlash mediaType
            else goStr "png"
          let data :=
            match objLookup src (goStr "data") with
            | some (.str d) => d
            | _ => []
          some ⟨format, ⟨data⟩⟩
        else none
      | _ => none
    else none
  | _ => none

/-- `ExtractImagesFromContent`. -/
def extractImagesFromContent : GoValue → List AmazonQImage
  | .arr blocks => blocks.filterMap imageOfBlock
  | _ => []

/-- Content items collected from a `tool_result` block's list content
(`ProcessToolResultBlock`, inner switch): a map contributes its string
`text` field whether or not its `type` is `"text"`; a plain string
contributes itself. -/
def toolResultItem (item : GoValue) : Option ToolResultContent :=
  match item with
  | .obj v =>
    if valIsStr (objLookup v (goStr "type")) (goStr "text") then
      match objLookup v (goStr "text") with
      | some (.str t) => some ⟨t⟩
      | _ => none
    else
      match objLookup v (goStr "text") with
      | some (.str t) => some ⟨t⟩
      | _ => none
  | .str s => some ⟨s⟩
  | _ => none

/-- Appends the contents to an existing entry with the same tool-use id,
or adds a fresh entry at the end (the dedupe loop of
`ProcessToolResultBlock`). -/
def mergeToolResult : List ToolResult → GoStr → List ToolResultContent → GoStr →
    List ToolResult
  | [], id, c, status => [⟨id, c, status⟩]
  | tr :: rest, id, c, status =>
    if tr.toolUseID = id then { tr with content := tr.content ++ c } :: rest
    else tr :: mergeToolResult rest id c status

/-- `ProcessToolResultBlock` (returns the updated `toolResults` list). -/
def processToolResultBlock (block : GoObj) (toolResults : List ToolResult) :
    List ToolResult :=
  let toolUseID :=
    match objLookup block (goStr "tool_use_id") with
    | some (.str s) => s
    | _ => []
  let aqContent : List ToolResultContent :=
    match objLookup block (goStr "content") with
    | some (.str s) => [⟨s⟩]
    | some (.arr items) => items.filterMap toolResultItem
    | _ => []
  let hasContent := aqContent.any fun c => goTrimSpace c.text ≠ []
  let aqContent :=
    if !hasContent then [⟨goStr "Tool use was cancelled by the user"⟩] else aqContent
  let status :=
    match objLookup block (goStr "status") with
    | some (.str s) => s
    | _ => goStr "success"
  mergeToolResult toolResults toolUseID aqContent status

/-- The truncation pointer sentence appended by `ConvertTool`. -/
def truncationPointer : GoStr :=
  goStr "\n\n...(Full description provided in TOOL DOCUMENTATION section)"

/-- `ConvertTool`. -/
def convertTool (tool : ClaudeTool) : AmazonQTool :=
  let desc :=
    if 10240 < tool.description.length then tool.description.take 10100 ++ truncationPointer
    else tool.description
  ⟨⟨tool.name, desc, .obj [(goStr "json", tool.inputSchema)]⟩⟩

/-- The zero value `UserInputMessage\x7b\x7d` returned by
`MergeUserMessages` on an empty run. -/
def emptyUserInputMessage : UserInputMessage :=
  ⟨[], ⟨⟨[], []⟩, [], []⟩, [], [], []⟩

/-- `MergeUserMessages` (loop translation: contents and per-message image
lists are accumulated in order, skipping empty ones; the base fields come
from index 0; only the last two accumulated image lists are kept). -/
def mergeUserMessages (messages : List UserInputMessage) : UserInputMessage :=
  match messages with
  | [] => emptyUserInputMessage
  | m0 :: _ =>
    let allContents :=
      messages.foldl (fun acc m => if m.content ≠ [] then acc ++ [m.content] else acc) []
    let allImages :=
      messages.foldl (fun acc m => if 0 < m.images.length then acc ++ [m.images] else acc) []
    let result0 : UserInputMessage :=
      { content := goJoin allContents (goStr "\n\n")
        userInputMessageContext := m0.userInputMessageContext
        origin := m0.origin
        modelID := m0.modelID
        images := [] }
    if 0 < allImages.length then
      let startIdx := allImages.length - 2
      let kept := (allImages.drop startIdx).flatten
      if 0 < kept.length then { result0 with images := kept } else result0
    else result0

/-- Conversion of one user message in pass one of `ProcessHistory`. -/
def convertUserMessage (thinkingEnabled : Bool) (thinkingHint : GoStr)
    (msg : ClaudeMessage) : UserInputMessage :=
  let content := msg.content
  let images := extractImagesFromContent content
  let shouldAppendHint := thinkingEnabled && !containsToolContent content
  let extracted :=
    match content with
    | .arr contentList =>
      let step :=
        contentList.foldl
          (fun (acc : List GoStr × List ToolResult) (block : GoValue) =>
            match block with
            | .obj blockMap =>
              if valIsStr (objLookup blockMap (goStr "type")) (goStr "text") then
                match objLookup blockMap (goStr "text") with
                | some (.str t) => (acc.1 ++ [t], acc.2)
                | _ => acc
              else if valIsStr (objLookup blockMap (goStr "type")) (goStr "tool_result") then
                (acc.1, processToolResultBlock blockMap acc.2)
              else acc
            | _ => acc)
          ([], [])
      (goJoin step.1 (goStr "\n"), step.2)
    | _ => (extractTextFromContent content, [])
  let textContent :=
    if shouldAppendHint then appendThinkingHint extracted.1 thinkingHint else extracted.1
  { content := textContent
    userInputMessageContext :=
      ⟨⟨goStr "macos", goStr "/"⟩, [], extracted.2⟩
    origin := goStr "CLI"
    modelID := []
    images := images }

/-- Conversion of one assistant message in pass one of `ProcessHistory`,
threading the process-wide set of already seen tool-use ids. -/
def convertAssistantMessage (seen : List GoStr) (msg : ClaudeMessage) :
    AssistantResponseMessage × List GoStr :=
  let textContent := extractTextFromContent msg.content
  match msg.content with
  | .arr contentList =>
    let step :=
      contentList.foldl
        (fun (acc : List ToolUse × List GoStr) (block : GoValue) =>
          match block with
          | .obj blockMap =>
            if valIsStr (objLookup blockMap (goStr "type")) (goStr "tool_use") then
              let tid :=
                match objLookup blockMap (goStr "id") with
                | some (.str s) => s
                | _ => []
              if tid ≠ [] ∧ ¬ acc.2.contains tid then
                let name :=
                  match objLookup blockMap (goStr "name") with
                  | some (.str s) => s
                  | _ => []
                let input :=
                  match objLookup blockMap (goStr "input") with
                  | some (.obj m) => m
                  | _ => []
                (acc.1 ++ [⟨tid, name, input⟩], acc.2 ++ [tid])
              else acc
            else acc
          | _ => acc)
        ([], seen)
    (⟨modelUUID, textContent, step.1⟩, step.2)
  | _ => (⟨modelUUID, textContent, []⟩, seen)

/-- Pass one of `ProcessHistory`: independent conversion of each message
(roles other than user/assistant are skipped). -/
def historyPassOne (thinkingEnabled : Bool) (thinkingHint : GoStr) :
    List GoStr → List ClaudeMessage → List HistoryEntry
  | _, [] => []
  | seen, msg :: rest =>
    if msg.role = goStr "user" then
      .user (convertUserMessage thinkingEnabled thinkingHint msg)
        :: historyPassOne thinkingEnabled thinkingHint seen rest
    else if msg.role = goStr "assistant" then
      let step := convertAssistantMessage seen msg
      .assistant step.1 :: historyPassOne thinkingEnabled thinkingHint step.2 rest
    else historyPassOne thinkingEnabled thinkingHint seen rest

/-- Pass two of `ProcessHistory`: consecutive user entries are collected
and merged into a single entry whenever an assistant entry (or the end of
the history) is reached. -/
def historyPassTwo (pending : List UserInputMessage) :
    List HistoryEntry → List HistoryEntry
  | [] => if pending.isEmpty then [] else [.user (mergeUserMessages pending)]
  | .user u :: rest => historyPassTwo (pending ++ [u]) rest
  | .assistant a :: rest =>
    (if pending.isEmpty then [] else [HistoryEntry.user (mergeUserMessages pending)])
      ++ HistoryEntry.assistant a :: historyPassTwo [] rest

/-- `ProcessHistory`. -/
def processHistory (messages : List ClaudeMessage) (thinkingEnabled : Bool)
    (thinkingHint : GoStr) : List HistoryEntry :=
  historyPassTwo [] (historyPassOne thinkingEnabled thinkingHint [] messages)

/-- The tool-description sidecar built by the tool loop of
`ConvertClaudeToAmazonQRequest`: name and full description of every tool
whose description exceeds 10240 bytes, in order. -/
def longDescToolsOf (tools : List ClaudeTool) : List (GoStr × GoStr) :=
  tools.foldl
    (fun acc t =>
      if 10240 < t.description.length then acc ++ [(t.name, t.description)] else acc)
    []

/-- One `TOOL DOCUMENTATION` entry
(`fmt.Sprintf("Tool: %s\nFull Description:\n%s\n", ...)`). -/
def toolDocEntry (name desc : GoStr) : GoStr :=
  goStr "Tool: " ++ name ++ goStr "\nFull Description:\n" ++ desc ++ goStr "\n"

/-- The `CONTEXT ENTRY` / `USER MESSAGE` wrapper around the prompt text. -/
def contextWrap (timestamp promptContent : GoStr) : GoStr :=
  goStr "--- CONTEXT ENTRY BEGIN ---\nCurrent time: " ++ timestamp
    ++ goStr "\n--- CONTEXT ENTRY END ---\n\n--- USER MESSAGE BEGIN ---\n"
    ++ promptContent ++ goStr "\n--- USER MESSAGE END ---"

/-- Prepends the `TOOL DOCUMENTATION` block when the long-description
sidecar is non-empty (`strings.Join(docs, "")` concatenates the
entries). -/
def applyToolDocs (longDesc : List (GoStr × GoStr)) (inner : GoStr) : GoStr :=
  if longDesc.isEmpty then inner
  else
    goStr "--- TOOL DOCUMENTATION BEGIN ---\n"
      ++ (longDesc.map fun p => toolDocEntry p.1 p.2).flatten
      ++ goStr "--- TOOL DOCUMENTATION END ---\n\n" ++ inner

/-- `ExtractSystemText` (also the inline system-text extraction of
`ConvertClaudeToAmazonQRequest`, which is the same computation). -/
def extractSystemText : GoValue → GoStr
  | .str v => v
  | .arr blocks => goJoin (blocks.filterMap textOfBlock) (goStr "\n")
  | _ => []

/-- Prepends the `SYSTEM PROMPT` block when a system prompt is present,
its extracted text is non-empty, and the formatted content so far is
non-empty. -/
def applySystemPrompt (system : Option GoValue) (inner : GoStr) : GoStr :=
  match system with
  | none => inner
  | some sys =>
    if inner ≠ [] then
      let sysText := extractSystemText sys
      if sysText ≠ [] then
        goStr "--- SYSTEM PROMPT BEGIN ---\n" ++ sysText
          ++ goStr "\n--- SYSTEM PROMPT END ---\n\n" ++ inner
      else inner
    else inner

/-- Extraction of the current turn (the last message, when its role is
`user`): prompt text, tool results, whether a `tool_result` block was
present, and images.  Mirrors lines 624-647 of the conversion. -/
def extractCurrentTurn (lastMsg : Option ClaudeMessage) :
    GoStr × List ToolResult × Bool × List AmazonQImage :=
  match lastMsg with
  | some m =>
    if m.role = goStr "user" then
      let images := extractImagesFromContent m.content
      match m.content with
      | .arr contentList =>
        let step :=
          contentList.foldl
            (fun (acc : List GoStr × List ToolResult × Bool) (block : GoValue) =>
              match block with
              | .obj blockMap =>
                if valIsStr (objLookup blockMap (goStr "type")) (goStr "text") then
                  match objLookup blockMap (goStr "text") with
                  | some (.str t) => (acc.1 ++ [t], acc.2.1, acc.2.2)
                  | _ => acc
                else if valIsStr (objLookup blockMap (goStr "type")) (goStr "tool_result") then
                  (acc.1, processToolResultBlock blockMap acc.2.1, true)
                else acc
              | _ => acc)
            ([], [], false)
        (goJoin step.1 (goStr "\n"), step.2.1, step.2.2, images)
      | other => (extractTextFromContent other, [], false, images)
    else ([], [], false, [])
  | none => ([], [], false, [])

/-- The current turn's prompt text after the optional thinking-hint
injection (lines 619-652 of the conversion). -/
def currentTurnPrompt (req : ClaudeRequest) : GoStr :=
  let lastMsg := req.messages.getLast?
  let turn := extractCurrentTurn lastMsg
  match lastMsg with
  | some m =>
    if isThinkingModeEnabled req.thinking && !containsToolContent m.content then
      appendThinkingHint turn.1 (buildThinkingHint (getThinkingBudgetTokens req.thinking))
    else turn.1
  | none => turn.1

/-- The formatted prompt body before the tool-documentation and
system-prompt blocks: empty when a tool result was present and the prompt
text is empty, otherwise the `CONTEXT ENTRY`/`USER MESSAGE` wrapper. -/
def formattedBaseOf (req : ClaudeRequest) (timestamp : GoStr) : GoStr :=
  if (extractCurrentTurn req.messages.getLast?).2.2.1 ∧ currentTurnPrompt req = [] then []
  else contextWrap timestamp (currentTurnPrompt req)

/-- `ConvertClaudeToAmazonQRequest`.  The caller-supplied conversation id
is used when non-empty (otherwise a generated UUID, modelled by
`modelUUID`); `timestamp` stands for `GetCurrentTimestamp()`. -/
def convertClaudeToAmazonQRequest (req : ClaudeRequest) (conversationID : GoStr)
    (timestamp : GoStr) : AmazonQRequest :=
  let conversationID := if conversationID = [] then modelUUID else conversationID
  let thinkingEnabled := isThinkingModeEnabled req.thinking
  let thinkingHint := buildThinkingHint (getThinkingBudgetTokens req.thinking)
  let aqTools := req.tools.map convertTool
  let turn := extractCurrentTurn req.messages.getLast?
  let userCtx : UserInputMessageContext :=
    ⟨⟨goStr "macos", goStr "/"⟩, aqTools, turn.2.1⟩
  let formattedContent :=
    applySystemPrompt req.system
      (applyToolDocs (longDescToolsOf req.tools) (formattedBaseOf req timestamp))
  let userInputMsg : UserInputMessage :=
    { content := formattedContent
      userInputMessageContext := userCtx
      origin := goStr "CLI"
      modelID := req.model
      images := turn.2.2.2 }
  let historyMsgs :=
    if 1 < req.messages.length then req.messages.dropLast else []
  let aqHistory := processHistory historyMsgs thinkingEnabled thinkingHint
  ⟨⟨conversationID, aqHistory, ⟨userInputMsg⟩, goStr "MANUAL"⟩⟩

/-- Substring containment on Go strings (used to state the `TOOL
DOCUMENTATION` claims). -/
def goContainsSub (s sub : GoStr) : Prop := ∃ a b, s = a ++ sub ++ b

/-! ## Claim theorems -/

/-! ### C1 — thinking tag split across fragment boundaries -/

set_option maxHeartbeats 1000000 in
/-- C1 (code bug exhibited).  The claim says a start tag split as
`"<thi"` / `"nking>"` across two consecutive `assistantResponseEvent`
fragments is detected as one marker, opening a single thinking block and
never emitting tag text as a `text_delta`.  The code disagrees: the
handler always clears its scan buffer at the end of `HandleEvent`, so the
trailing partial marker `"<thi"` is flushed as a text delta and the next
fragment `"nking>"` follows it literally — no thinking block is ever
opened.  This contradicts the struct's own persistent cross-event
`ThinkBuffer` and the documented stateful tag detection, so the code, not
the claim, is wrong. -/
theorem c1_split_tag_flushed_literally :
    runAll (goStr "m") 0
      [(goStr "assistantResponseEvent",
        GoValue.obj [(goStr "content", GoValue.str (goStr "<thi"))]),
       (goStr "assistantResponseEvent",
        GoValue.obj [(goStr "content", GoValue.str (goStr "nking>"))])]
    = [SSE.contentBlockStart 0 BlockKind.text,
       SSE.contentBlockDelta 0 (goStr "<thi"),
       SSE.contentBlockDelta 0 (goStr "nking>"),
       SSE.contentBlockStop 0,
       SSE.messageStop 0 2 none] := by rfl

/-! ### C2 — balanced starts/stops and increasing indices -/

set_option maxHeartbeats 1000000 in
/-- C2 (code bug exhibited).  The claim says every run ended by `Finish`
emits as many `content_block_start` as `content_block_stop` events.  On
the single fragment `"<thinking>a</thinking>b"` the handler opens a
thinking block (index 0), closes it, then opens a text block (index 1)
without resetting `ContentBlockStopSent`; `Finish`'s close-dangling-block
guard `ContentBlockStarted && !ContentBlockStopSent` is therefore false
and the text block is never closed: two starts, one stop — contradicting
`Finish`'s own documentation that it closes all unclosed blocks.  (The
start indices 0, 1 do increase as claimed.) -/
theorem c2_unbalanced_stops :
    (runAll (goStr "m") 0
      [(goStr "assistantResponseEvent",
        GoValue.obj [(goStr "content", GoValue.str (goStr "<thinking>a</thinking>b"))])]
     = [SSE.contentBlockStart 0 BlockKind.thinking,
        SSE.contentBlockDelta 0 (goStr "a"),
        SSE.contentBlockStop 0,
        SSE.contentBlockStart 1 BlockKind.text,
        SSE.contentBlockDelta 1 (goStr "b"),
        SSE.messageStop 0 1 none])
    ∧ ([SSE.contentBlockStart 0 BlockKind.thinking,
        SSE.contentBlockDelta 0 (goStr "a"),
        SSE.contentBlockStop 0,
        SSE.contentBlockStart 1 BlockKind.text,
        SSE.contentBlockDelta 1 (goStr "b"),
        SSE.messageStop 0 1 none].countP isBlockStartEv = 2
      ∧ [SSE.contentBlockStart 0 BlockKind.thinking,
         SSE.contentBlockDelta 0 (goStr "a"),
         SSE.contentBlockStop 0,
         SSE.contentBlockStart 1 BlockKind.text,
         SSE.contentBlockDelta 1 (goStr "b"),
         SSE.messageStop 0 1 none].countP isBlockStopEv = 1
      ∧ (2 : Nat) ≠ 1) :=
  ⟨by rfl, by decide, by decide, by decide⟩

/-! ### C3 — leniency of the event-stream decoder -/

/-- Helper: the big-endian length prefix only depends on the first four
bytes. -/
theorem readU32_append : ∀ (l : List Nat), 4 ≤ l.length → ∀ r, readU32 (l ++ r) = readU32 l
  | _ :: _ :: _ :: _ :: _, _, _ => rfl
  | [], h, _ => absurd h (by simp)
  | [_], h, _ => absurd h (by simp)
  | [_, _], h, _ => absurd h (by simp)
  | [_, _, _], h, _ => absurd h (by simp)

/-- C3 counterexample.  The claim says a frame with inconsistent internal
offsets is skipped and decoding is never aborted (and never crashes).
The 16-byte frame below declares total length 16 and headers length 1,
which makes the payload slice `data[13 : 12]` inverted;
`ParseMessage` has no consistency check, the Go slice expression panics,
and the whole decode aborts instead of skipping the frame. -/
theorem c3_inconsistent_frame_aborts_decoding :
    parseStreamModel [0, 0, 0, 16, 0, 0, 0, 1, 0, 0, 0, 0, 0, 0, 0, 0]
      = .panicked [] := by rfl

/-- C3 (amended): only frames that are too short to parse (declared total
length below 16, matching their size) are skipped, with decoding
continuing at the next frame; a frame whose declared headers length is
inconsistent with its total length is not skipped — the payload slice
bounds invert and `ParseMessage` panics, aborting the decode. -/
theorem c3_short_frames_skipped_inconsistent_frames_panic :
    (∀ (frame rest : List Nat) (acc : List EventStreamMessage) (fuel : Nat),
        12 ≤ frame.length → frame.length < 16 → readU32 frame = frame.length →
        processBuffer (fuel + 1) (frame ++ rest) acc = processBuffer fuel rest acc)
    ∧ parseMessage [0, 0, 0, 16, 0, 0, 0, 1, 0, 0, 0, 0, 0, 0, 0, 0] = .panicked := by
  constructor
  · intro frame rest acc fuel h12 h16 hread
    have hr : readU32 (frame ++ rest) = frame.length := by
      rw [readU32_append frame (by omega) rest, hread]
    have hpm : parseMessage frame = .err := by
      unfold parseMessage
      rw [if_pos h16]
    simp only [processBuffer]
    rw [if_neg (by simp; omega)]
    simp only [hr]
    rw [if_neg (by simp)]
    rw [List.take_left, List.drop_left, hpm]
  · rfl

/-- C3 witness: the skip clause applied to a concrete 12-byte frame
declaring total length 12. -/
theorem c3_short_frames_skipped_witness :
    (12 ≤ ([0, 0, 0, 12, 0, 0, 0, 0, 0, 0, 0, 0] : List Nat).length
      ∧ ([0, 0, 0, 12, 0, 0, 0, 0, 0, 0, 0, 0] : List Nat).length < 16
      ∧ readU32 [0, 0, 0, 12, 0, 0, 0, 0, 0, 0, 0, 0]
          = ([0, 0, 0, 12, 0, 0, 0, 0, 0, 0, 0, 0] : List Nat).length)
    ∧ processBuffer 1 ([0, 0, 0, 12, 0, 0, 0, 0, 0, 0, 0, 0] ++ []) []
        = processBuffer 0 [] [] :=
  ⟨⟨by decide, by decide, by decide⟩,
   c3_short_frames_skipped_inconsistent_frames_panic.1
     [0, 0, 0, 12, 0, 0, 0, 0, 0, 0, 0, 0] [] [] 0 (by decide) (by decide) (by decide)⟩

/-! ### C4 — aggregator behaviour on unparsable tool input -/

/-- Helper: deleting one key of a Go map leaves the other keys'
lookups unchanged. -/
theorem objLookup_objDelete_ne (m : GoObj) (k k' : GoStr) (hne : k' ≠ k) :
    objLookup (objDelete m k) k' = objLookup m k' := by
  induction m with
  | nil => rfl
  | cons kv rest ih =>
    obtain ⟨key, v⟩ := kv
    by_cases hk : key = k
    · subst hk
      simp [objDelete, objLookup, hne.symm]
    · by_cases hk' : key = k'
      · subst hk'
        simp [objDelete, objLookup, hk]
      · simp [objDelete, objLookup, hk, hk', ih]

set_option maxHeartbeats 1000000 in
/-- C4 counterexample.  The claim says that when the accumulated
partial-input buffer of a tool_use block fails to parse, the raw text is
retained in the final block ("the buffer is left untouched").  The code
instead runs `delete(block, "partial_json")` unconditionally, so on parse
failure the raw text `"\x7binvalid"` is dropped: the final block carries
only the initial empty `input` object and no `partial_json` key.  The
`fun _ => none` argument stands for `json.Unmarshal`, which fails on the
malformed input `"\x7binvalid"`. -/
theorem c4_unparsable_tool_input_dropped :
    runAgg (fun _ => none)
      ⟨[], [(goStr "input_tokens", 0), (goStr "output_tokens", 0)], none⟩
      [AggEvent.blockStart 0
          [(goStr "type", GoValue.str (goStr "tool_use")),
           (goStr "id", GoValue.str (goStr "t1")),
           (goStr "name", GoValue.str (goStr "w")),
           (goStr "input", GoValue.obj [])],
       AggEvent.blockDelta 0
          [(goStr "type", GoValue.str (goStr "input_json_delta")),
           (goStr "partial_json", GoValue.str (goStr "\x7binvalid"))],
       AggEvent.blockStop 0]
    = some ⟨[some [(goStr "type", GoValue.str (goStr "tool_use")),
                   (goStr "id", GoValue.str (goStr "t1")),
                   (goStr "name", GoValue.str (goStr "w")),
                   (goStr "input", GoValue.obj [])]],
            [(goStr "input_tokens", 0), (goStr "output_tokens", 0)], none⟩ := by rfl

/-- C4 (amended): `content_block_stop` on a tool_use block whose
accumulated partial-input buffer fails to parse removes the raw buffer
from the block (the `partial_json` key is deleted unconditionally) while
leaving the block's `input` value untouched; the response is not failed —
the aggregator step succeeds.  Only on a successful parse would `input`
be replaced by the parsed value. -/
theorem c4_parse_failure_discards_buffer (parse : GoStr → Option GoObj)
    (st : AggState) (idx : Nat) (block : GoObj) (pj : GoStr)
    (hidx : idx < st.finalContent.length)
    (hblk : st.finalContent.getD idx none = some block)
    (htype : valIsStr (objLookup block (goStr "type")) (goStr "tool_use") = true)
    (hpj : objLookup block (goStr "partial_json") = some (.str pj))
    (hfail : parse pj = none) :
    aggStep parse st (.blockStop idx)
      = some { st with finalContent :=
          st.finalContent.set idx (some (objDelete block (goStr "partial_json"))) }
    ∧ objLookup (objDelete block (goStr "partial_json")) (goStr "input")
      = objLookup block (goStr "input") := by
  constructor
  · simp only [aggStep]
    rw [if_pos hidx, hblk]
    simp only [htype, hpj, hfail]
    rfl
  · exact objLookup_objDelete_ne block _ _ (by decide)

/-- C4 witness: the amended statement applied to a concrete state holding
one tool_use block whose buffer `"\x7binvalid"` does not parse. -/
theorem c4_parse_failure_discards_buffer_witness :
    ((0 : Nat) < ([some [(goStr "type", GoValue.str (goStr "tool_use")),
                         (goStr "input", GoValue.obj []),
                         (goStr "partial_json", GoValue.str (goStr "\x7binvalid"))]] :
                  List (Option GoObj)).length
      ∧ valIsStr (objLookup [(goStr "type", GoValue.str (goStr "tool_use")),
                             (goStr "input", GoValue.obj []),
                             (goStr "partial_json", GoValue.str (goStr "\x7binvalid"))]
                    (goStr "type")) (goStr "tool_use") = true)
    ∧ (aggStep (fun _ => none)
        ⟨[some [(goStr "type", GoValue.str (goStr "tool_use")),
                (goStr "input", GoValue.obj []),
                (goStr "partial_json", GoValue.str (goStr "\x7binvalid"))]], [], none⟩
        (.blockStop 0)
      = some ⟨[some (objDelete [(goStr "type", GoValue.str (goStr "tool_use")),
                                (goStr "input", GoValue.obj []),
                                (goStr "partial_json", GoValue.str (goStr "\x7binvalid"))]
                      (goStr "partial_json"))], [], none⟩
      ∧ objLookup (objDelete [(goStr "type", GoValue.str (goStr "tool_use")),
                              (goStr "input", GoValue.obj []),
                              (goStr "partial_json", GoValue.str (goStr "\x7binvalid"))]
                    (goStr "partial_json")) (goStr "input")
        = objLookup [(goStr "type", GoValue.str (goStr "tool_use")),
                     (goStr "input", GoValue.obj []),
                     (goStr "partial_json", GoValue.str (goStr "\x7binvalid"))]
            (goStr "input")) :=
  ⟨⟨by decide, by rfl⟩,
   c4_parse_failure_discards_buffer (fun _ => none) _ 0 _ _ (by decide) rfl rfl rfl rfl⟩

/-! ### C5 — output-token accounting -/

set_option maxHeartbeats 1000000 in
/-- C5 counterexample.  The claim says the reported output-token count is
the ceiling of (emitted length / 4), floored at 1.  A run emitting the
five-byte text `"hello"` reports `5 / 4 = 1` (Go integer division is a
floor), while the claimed ceiling would be 2. -/
theorem c5_floor_not_ceiling :
    (runAll (goStr "m") 0
      [(goStr "assistantResponseEvent",
        GoValue.obj [(goStr "content", GoValue.str (goStr "hello"))])]
     = [SSE.contentBlockStart 0 BlockKind.text,
        SSE.contentBlockDelta 0 (goStr "hello"),
        SSE.contentBlockStop 0,
        SSE.messageStop 0 1 none])
    ∧ ((goStr "hello").length + 4 - 1) / 4 = 2 ∧ (1 : Nat) ≠ 2 :=
  ⟨by rfl, by decide, by decide⟩

/-! ### C6 — message_start uniqueness and ordering -/

set_option maxHeartbeats 1000000 in
/-- C6 counterexample.  The claim asserts for every classified-event
sequence that `message_start` strictly precedes the first
`content_block_start`.  If an `assistantResponseEvent` arrives before any
`initial-response`, the handler opens a text block first and emits
`message_start` only later: below the first `content_block_start` is at
position 0 and `message_start` at position 2. -/
theorem c6_block_start_before_message_start :
    (runAll (goStr "m") 0
      [(goStr "assistantResponseEvent",
        GoValue.obj [(goStr "content", GoValue.str (goStr "a"))]),
       (goStr "initial-response", GoValue.obj [])]
     = [SSE.contentBlockStart 0 BlockKind.text,
        SSE.contentBlockDelta 0 (goStr "a"),
        SSE.messageStart (goStr "m") 0 generateMessageID,
        SSE.contentBlockStop 0,
        SSE.messageStop 0 1 none])
    ∧ msPrecedesFirstBS
        [SSE.contentBlockStart 0 BlockKind.text,
         SSE.contentBlockDelta 0 (goStr "a"),
         SSE.messageStart (goStr "m") 0 generateMessageID,
         SSE.contentBlockStop 0,
         SSE.messageStop 0 1 none] = false :=
  ⟨by rfl, by rfl⟩

/-! ### C7 — the keep-alive ping -/

set_option maxHeartbeats 1000000 in
/-- C7 counterexample.  The claim asserts for every run opening at least
one content block that exactly one ping is emitted.  The ping is armed
only by `initial-response`; a run consisting of a single
`assistantResponseEvent` opens a block and emits no ping at all. -/
theorem c7_block_without_ping :
    (runAll (goStr "m") 0
      [(goStr "assistantResponseEvent",
        GoValue.obj [(goStr "content", GoValue.str (goStr "a"))])]
     = [SSE.contentBlockStart 0 BlockKind.text,
        SSE.contentBlockDelta 0 (goStr "a"),
        SSE.contentBlockStop 0,
        SSE.messageStop 0 1 none])
    ∧ ([SSE.contentBlockStart 0 BlockKind.text,
        SSE.contentBlockDelta 0 (goStr "a"),
        SSE.contentBlockStop 0,
        SSE.messageStop 0 1 none].countP isBlockStartEv = 1
      ∧ [SSE.contentBlockStart 0 BlockKind.text,
         SSE.contentBlockDelta 0 (goStr "a"),
         SSE.contentBlockStop 0,
         SSE.messageStop 0 1 none].countP isPingEv = 0
      ∧ (0 : Nat) ≠ 1) :=
  ⟨by rfl, by decide, by decide, by decide⟩

/-! ### C10 — non-object payloads are ignored -/

/-- C10: for every event type and every payload that is not a JSON
object, `HandleEvent` emits no events and leaves the handler state
unchanged — the failed `payload.(map[string]interface\x7b\x7d)` type
assertion returns immediately. -/
theorem c10_nonobject_payload_noop (h : Handler) (eventType : GoStr)
    (payload : GoValue) (hp : isObjValue payload = false) :
    handleEvent h eventType payload = (h, []) := by
  cases payload with
  | obj fields => exact absurd hp (by simp [isObjValue])
  | str s => rfl
  | num n => rfl
  | bool b => rfl
  | null => rfl
  | arr xs => rfl

/-- C10 witness: a string payload on a fresh handler. -/
theorem c10_nonobject_payload_noop_witness :
    isObjValue (GoValue.str (goStr "x")) = false
    ∧ handleEvent (newHandler (goStr "m") 0) (goStr "initial-response")
        (GoValue.str (goStr "x"))
      = (newHandler (goStr "m") 0, []) :=
  ⟨by rfl, c10_nonobject_payload_noop _ _ _ (by rfl)⟩

/-! ### C8 — merging consecutive user entries -/

/-- Helper: the content-collecting loop of `MergeUserMessages` keeps the
non-empty contents in order. -/
theorem foldl_collect_contents :
    ∀ (l : List UserInputMessage) (acc : List GoStr),
      l.foldl (fun acc m => if m.content ≠ [] then acc ++ [m.content] else acc) acc
        = acc ++ (l.map (fun m => m.content)).filter (fun c => !c.isEmpty) := by
  intro l
  induction l with
  | nil => intro acc; simp
  | cons m rest ih =>
    intro acc
    rw [List.foldl_cons, List.map_cons, List.filter_cons]
    by_cases hc : m.content = []
    · rw [if_neg (by simp [hc]), if_neg (by simp [hc])]
      exact ih acc
    · rw [if_pos hc, if_pos (by simp [hc]), ih (acc ++ [m.content])]
      simp

/-- Helper: the image-collecting loop of `MergeUserMessages` keeps the
non-empty per-message image lists in order. -/
theorem foldl_collect_images :
    ∀ (l : List UserInputMessage) (acc : List (List AmazonQImage)),
      l.foldl (fun acc m => if 0 < m.images.length then acc ++ [m.images] else acc) acc
        = acc ++ (l.map (fun m => m.images)).filter (fun g => !g.isEmpty) := by
  intro l
  induction l with
  | nil => intro acc; simp
  | cons m rest ih =>
    intro acc
    rw [List.foldl_cons, List.map_cons, List.filter_cons]
    by_cases hc : m.images = []
    · rw [if_neg (by simp [hc]), if_neg (by simp [hc])]
      exact ih acc
    · rw [if_pos (List.length_pos.mpr hc), if_pos (by simp [hc]), ih (acc ++ [m.images])]
      simp

/-- Helper: keeping the last two of a non-empty list of non-empty image
groups yields a non-empty image list. -/
theorem kept_images_ne_nil (gs : List (List AmazonQImage)) (hne : gs ≠ [])
    (hall : ∀ g ∈ gs, g ≠ []) : (gs.drop (gs.length - 2)).flatten ≠ [] := by
  have hlen : 0 < (gs.drop (gs.length - 2)).length := by
    rw [List.length_drop]
    cases gs with
    | nil => exact absurd rfl hne
    | cons a t => simp; omega
  obtain ⟨g, t, hgt⟩ : ∃ g t, gs.drop (gs.length - 2) = g :: t := by
    cases hd : gs.drop (gs.length - 2) with
    | nil => rw [hd] at hlen; simp at hlen
    | cons g t => exact ⟨g, t, rfl⟩
  have hg : g ∈ gs := by
    have : g ∈ gs.drop (gs.length - 2) := by rw [hgt]; exact List.mem_cons_self g t
    exact List.mem_of_mem_drop this
  rw [hgt, List.flatten_cons]
  intro hemp
  exact hall g hg (List.append_eq_nil.mp hemp).1

/-- C8 counterexample.  The claim says the merged entry's image list is
exactly the images of the last two entries of the run.  With a run whose
middle entry carries no images (image lists `[A]`, `[]`, `[C]`), the
images of the last two entries are `[C]`, but the code keeps the last two
image-carrying entries and yields `[A, C]`. -/
theorem c8_images_not_last_two_entries :
    (mergeUserMessages
      [⟨goStr "a", ⟨⟨goStr "macos", goStr "/"⟩, [], []⟩, goStr "CLI", [],
        [⟨goStr "png", ⟨goStr "A"⟩⟩]⟩,
       ⟨goStr "b", ⟨⟨goStr "macos", goStr "/"⟩, [], []⟩, goStr "CLI", [], []⟩,
       ⟨goStr "c", ⟨⟨goStr "macos", goStr "/"⟩, [], []⟩, goStr "CLI", [],
        [⟨goStr "png", ⟨goStr "C"⟩⟩]⟩]).images
      = [⟨goStr "png", ⟨goStr "A"⟩⟩, ⟨goStr "png", ⟨goStr "C"⟩⟩]
    ∧ ([⟨goStr "png", ⟨goStr "A"⟩⟩, ⟨goStr "png", ⟨goStr "C"⟩⟩] : List AmazonQImage)
      ≠ [⟨goStr "png", ⟨goStr "C"⟩⟩] :=
  ⟨by rfl, by decide⟩

/-- C8 (amended): for every non-empty run of converted user entries, the
merged entry joins the non-empty texts with a blank-line separator, takes
its context/origin/model fields from the first entry of the run, and
keeps exactly the images of the last two entries **that carry at least
one image** (in order); in particular three consecutive user turns
carrying image lists `[A]`, `[B]`, `[C]` merge to the image list
`[B, C]`. -/
theorem c8_merge_joins_texts_and_keeps_last_two_image_groups :
    (∀ (m0 : UserInputMessage) (ms : List UserInputMessage),
      mergeUserMessages (m0 :: ms)
        = { content := goJoin (((m0 :: ms).map fun m => m.content).filter
                         fun c => !c.isEmpty) (goStr "\n\n")
            userInputMessageContext := m0.userInputMessageContext
            origin := m0.origin
            modelID := m0.modelID
            images :=
              ((((m0 :: ms).map fun m => m.images).filter fun g => !g.isEmpty).drop
                ((((m0 :: ms).map fun m => m.images).filter fun g => !g.isEmpty).length
                  - 2)).flatten })
    ∧ (mergeUserMessages
        [⟨goStr "a", ⟨⟨goStr "macos", goStr "/"⟩, [], []⟩, goStr "CLI", [],
          [⟨goStr "png", ⟨goStr "A"⟩⟩]⟩,
         ⟨goStr "b", ⟨⟨goStr "macos", goStr "/"⟩, [], []⟩, goStr "CLI", [],
          [⟨goStr "png", ⟨goStr "B"⟩⟩]⟩,
         ⟨goStr "c", ⟨⟨goStr "macos", goStr "/"⟩, [], []⟩, goStr "CLI", [],
          [⟨goStr "png", ⟨goStr "C"⟩⟩]⟩]).images
        = [⟨goStr "png", ⟨goStr "B"⟩⟩, ⟨goStr "png", ⟨goStr "C"⟩⟩] := by
  constructor
  · intro m0 ms
    have hgs : ∀ g ∈ ((m0 :: ms).map fun m => m.images).filter (fun g => !g.isEmpty),
        g ≠ [] := by
      intro g hgmem
      have := (List.mem_filter.mp hgmem).2
      simpa using this
    simp only [mergeUserMessages]
    rw [foldl_collect_contents, foldl_collect_images]
    simp only [List.nil_append]
    by_cases hne : ((m0 :: ms).map fun m => m.images).filter (fun g => !g.isEmpty) = []
    · rw [hne]
      simp
    · rw [if_pos (List.length_pos.mpr hne),
          if_pos (List.length_pos.mpr (kept_images_ne_nil _ hne hgs))]
  · rfl

/-! ### C9 — tool-description truncation and the TOOL DOCUMENTATION block -/

/-- Helper: the tool loop's long-description sidecar collects exactly the
tools whose description exceeds 10240 bytes, in order. -/
theorem foldl_longDesc :
    ∀ (l : List ClaudeTool) (acc : List (GoStr × GoStr)),
      l.foldl (fun acc t =>
          if 10240 < t.description.length then acc ++ [(t.name, t.description)] else acc) acc
        = acc ++ (l.filter fun t => 10240 < t.description.length).map
            (fun t => (t.name, t.description)) := by
  intro l
  induction l with
  | nil => intro acc; simp
  | cons t rest ih =>
    intro acc
    rw [List.foldl_cons, List.filter_cons]
    by_cases hlen : 10240 < t.description.length
    · rw [if_pos hlen, if_pos (by simpa using hlen), ih (acc ++ [(t.name, t.description)])]
      simp
    · rw [if_neg hlen, if_neg (by simpa using hlen)]
      exact ih acc

/-- Helper: a tool with an over-long description lands in the sidecar. -/
theorem mem_longDescToolsOf (tools : List ClaudeTool) (t : ClaudeTool)
    (htmem : t ∈ tools) (hlong : 10240 < t.description.length) :
    (t.name, t.description) ∈ longDescToolsOf tools := by
  unfold longDescToolsOf
  rw [foldl_longDesc]
  simp only [List.nil_append, List.mem_map]
  exact ⟨t, List.mem_filter.mpr ⟨htmem, by simpa using hlong⟩, rfl⟩

/-- Helper: with only short descriptions the sidecar is empty. -/
theorem longDescToolsOf_eq_nil (tools : List ClaudeTool)
    (hshort : ∀ t ∈ tools, t.description.length ≤ 10240) :
    longDescToolsOf tools = [] := by
  unfold longDescToolsOf
  rw [foldl_longDesc]
  simp only [List.nil_append, List.map_eq_nil_iff, List.filter_eq_nil_iff]
  intro t ht
  simpa using Nat.not_lt.mpr (hshort t ht)

/-- Helper: each sidecar entry appears verbatim inside the TOOL
DOCUMENTATION block. -/
theorem contains_applyToolDocs (L : List (GoStr × GoStr)) (inner : GoStr)
    (n d : GoStr) (hmem : (n, d) ∈ L) :
    goContainsSub (applyToolDocs L inner) (toolDocEntry n d) := by
  have hne : L ≠ [] := by rintro rfl; simp at hmem
  have hent : toolDocEntry n d ∈ L.map fun p => toolDocEntry p.1 p.2 :=
    List.mem_map.mpr ⟨(n, d), hmem, rfl⟩
  obtain ⟨pre, post, heq⟩ := List.append_of_mem hent
  refine ⟨goStr "--- TOOL DOCUMENTATION BEGIN ---\n" ++ pre.flatten,
          post.flatten ++ goStr "--- TOOL DOCUMENTATION END ---\n\n" ++ inner, ?_⟩
  unfold applyToolDocs
  rw [if_neg (by simpa using hne), heq]
  simp [List.append_assoc]

/-- Helper: prepending the system-prompt block preserves substring
containment. -/
theorem contains_applySystemPrompt (sys : Option GoValue) (inner sub : GoStr)
    (h : goContainsSub inner sub) : goContainsSub (applySystemPrompt sys inner) sub := by
  obtain ⟨a, b, hab⟩ := h
  cases sys with
  | none => exact ⟨a, b, hab⟩
  | some s =>
    have hdef : applySystemPrompt (some s) inner
        = (if inner ≠ [] then
            (if extractSystemText s ≠ [] then
              goStr "--- SYSTEM PROMPT BEGIN ---\n" ++ extractSystemText s
                ++ goStr "\n--- SYSTEM PROMPT END ---\n\n" ++ inner
            else inner)
          else inner) := rfl
    rw [hdef]
    split
    · split
      · refine ⟨goStr "--- SYSTEM PROMPT BEGIN ---\n" ++ extractSystemText s
          ++ goStr "\n--- SYSTEM PROMPT END ---\n\n" ++ a, b, ?_⟩
        rw [hab]
        simp [List.append_assoc]
      · exact ⟨a, b, hab⟩
    · exact ⟨a, b, hab⟩

/-- Helper: the formatted prompt body of the converted request is the
base content wrapped by the tool-documentation and system-prompt
blocks. -/
theorem convert_content_projection (req : ClaudeRequest) (cid ts : GoStr) :
    (convertClaudeToAmazonQRequest req cid ts).conversationState.currentMessage.userInputMessage.content
      = applySystemPrompt req.system
          (applyToolDocs (longDescToolsOf req.tools) (formattedBaseOf req ts)) := rfl

/-- C9: a tool description longer than 10240 bytes is converted to its
first 10100 bytes followed by the fixed truncation-pointer sentence, and
the formatted prompt body of the converted request contains a TOOL
DOCUMENTATION entry with that tool's name and its full original
description; a description of at most 10240 bytes passes through
unmodified and contributes nothing to the long-description sidecar (an
empty sidecar leaves the prompt body without a TOOL DOCUMENTATION
block). -/
theorem c9_tool_description_truncation_and_documentation :
    (∀ (req : ClaudeRequest) (cid ts : GoStr) (t : ClaudeTool), t ∈ req.tools →
       (10240 < t.description.length →
          (convertTool t).toolSpecification.description
            = t.description.take 10100 ++ truncationPointer
          ∧ goContainsSub
              (convertClaudeToAmazonQRequest req cid ts).conversationState.currentMessage.userInputMessage.content
              (toolDocEntry t.name t.description))
       ∧ (t.description.length ≤ 10240 →
          (convertTool t).toolSpecification.description = t.description))
    ∧ (∀ tools : List ClaudeTool,
        (∀ t ∈ tools, t.description.length ≤ 10240) → longDescToolsOf tools = [])
    ∧ (∀ inner : GoStr, applyToolDocs [] inner = inner) := by
  refine ⟨?_, longDescToolsOf_eq_nil, fun inner => rfl⟩
  intro req cid ts t htmem
  have hdesc : (convertTool t).toolSpecification.description
      = (if 10240 < t.description.length then
          t.description.take 10100 ++ truncationPointer
        else t.description) := rfl
  constructor
  · intro hlong
    constructor
    · rw [hdesc, if_pos hlong]
    · rw [convert_content_projection]
      exact contains_applySystemPrompt _ _ _
        (contains_applyToolDocs _ _ _ _ (mem_longDescToolsOf req.tools t htmem hlong))
  · intro hshort
    rw [hdesc, if_neg (Nat.not_lt.mpr hshort)]

/-- C9 witness: a single tool whose description is 10300 bytes long, in a
request with no messages and no system prompt. -/
theorem c9_tool_description_truncation_witness :
    ((⟨goStr "t", List.replicate 10300 'a', GoValue.null⟩ : ClaudeTool)
        ∈ (⟨goStr "m", [], 0, [⟨goStr "t", List.replicate 10300 'a', GoValue.null⟩],
            false, none, none⟩ : ClaudeRequest).tools
      ∧ 10240 < (List.replicate 10300 'a').length)
    ∧ ((convertTool ⟨goStr "t", List.replicate 10300 'a', GoValue.null⟩).toolSpecification.description
        = (List.replicate 10300 'a').take 10100 ++ truncationPointer
      ∧ goContainsSub
          (convertClaudeToAmazonQRequest
            ⟨goStr "m", [], 0, [⟨goStr "t", List.replicate 10300 'a', GoValue.null⟩],
             false, none, none⟩ (goStr "c") (goStr "ts")).conversationState.currentMessage.userInputMessage.content
          (toolDocEntry (goStr "t") (List.replicate 10300 'a'))) :=
  ⟨⟨List.mem_singleton.mpr rfl, by rw [List.length_replicate]; norm_num⟩,
   (c9_tool_description_truncation_and_documentation.1
      ⟨goStr "m", [], 0, [⟨goStr "t", List.replicate 10300 'a', GoValue.null⟩],
       false, none, none⟩ (goStr "c") (goStr "ts")
      ⟨goStr "t", List.replicate 10300 'a', GoValue.null⟩ (List.mem_singleton.mpr rfl)).1
     (by rw [List.length_replicate]; norm_num)⟩

theorem firstIdxP_eq_none (pr : SSE → Bool) :
    ∀ δ : List SSE, firstIdxP pr δ = none ↔ δ.countP pr = 0 := by
  intro δ
  induction δ with
  | nil => simp [firstIdxP]
  | cons e rest ih =>
    by_cases he : pr e
    · simp [firstIdxP, he, List.countP_cons]
    · simp [firstIdxP, he, List.countP_cons, ih]

theorem firstIdxP_append_some (pr : SSE → Bool) (δ₁ δ₂ : List SSE) (k : Nat)
    (h : firstIdxP pr δ₁ = some k) : firstIdxP pr (δ₁ ++ δ₂) = some k := by
  induction δ₁ generalizing k with
  | nil => simp [firstIdxP] at h
  | cons e rest ih =>
    by_cases he : pr e
    · simp [firstIdxP, he] at h ⊢
      exact h
    · simp [firstIdxP, he] at h ⊢
      obtain ⟨j, hj, hk⟩ := h
      exact ⟨j, ih j hj, hk⟩

theorem firstIdxP_append_none (pr : SSE → Bool) (δ₁ δ₂ : List SSE)
    (h : firstIdxP pr δ₁ = none) :
    firstIdxP pr (δ₁ ++ δ₂) = (firstIdxP pr δ₂).map (· + δ₁.length) := by
  induction δ₁ with
  | nil => simp
  | cons e rest ih =>
    by_cases he : pr e
    · simp [firstIdxP, he] at h
    · simp [firstIdxP, he] at h ⊢
      rw [ih h]
      cases firstIdxP pr δ₂ with
      | none => simp
      | some j => simp; omega

theorem pingRel_refl (p : Bool) : pingRel p [] p := by
  cases p <;> simp [pingRel, firstIdxP]

theorem pingRel_neutral (p : Bool) (δ : List SSE)
    (hBS : δ.countP isBlockStartEv = 0) (hP : δ.countP isPingEv = 0) :
    pingRel p δ p := by
  cases p
  · exact ⟨rfl, hP⟩
  · simp only [pingRel, if_pos]
    rw [(firstIdxP_eq_none isBlockStartEv δ).mpr hBS]
    exact ⟨by trivial, hP⟩

theorem pingRel_false (δ : List SSE) (hP : δ.countP isPingEv = 0) :
    pingRel false δ false := ⟨rfl, hP⟩

theorem pingRel_append (p q r : Bool) (δ₁ δ₂ : List SSE)
    (h₁ : pingRel p δ₁ q) (h₂ : pingRel q δ₂ r) :
    pingRel p (δ₁ ++ δ₂) r := by
  cases p
  · obtain ⟨hq, hδ₁⟩ := h₁
    subst hq
    obtain ⟨hr, hδ₂⟩ := h₂
    exact ⟨hr, by rw [List.countP_append, hδ₁, hδ₂]⟩
  · simp only [pingRel] at h₁ ⊢
    cases hfi : firstIdxP isBlockStartEv δ₁ with
    | none =>
      rw [hfi] at h₁
      obtain ⟨hq, hδ₁⟩ := h₁
      subst hq
      simp only [pingRel, if_pos] at h₂
      cases hfi₂ : firstIdxP isBlockStartEv δ₂ with
      | none =>
        rw [hfi₂] at h₂
        rw [firstIdxP_append_none _ _ _ hfi, hfi₂]
        exact ⟨h₂.1, by rw [List.countP_append, hδ₁, h₂.2]⟩
      | some j =>
        rw [hfi₂] at h₂
        obtain ⟨hr, hcnt, hget⟩ := h₂
        rw [firstIdxP_append_none _ _ _ hfi, hfi₂]
        refine ⟨hr, by rw [List.countP_append, hδ₁, hcnt], ?_⟩
        simp only [Option.map_some]
        have hlen : δ₁.length ≤ j + δ₁.length + 1 := by omega
        rw [List.get?_append_right hlen]
        have : j + δ₁.length + 1 - δ₁.length = j + 1 := by omega
        rw [this]
        exact hget
    | some k =>
      rw [hfi] at h₁
      obtain ⟨hq, hcnt, hget⟩ := h₁
      subst hq
      obtain ⟨hr, hδ₂⟩ := h₂
      subst hr
      rw [firstIdxP_append_some _ _ _ _ hfi]
      refine ⟨rfl, by rw [List.countP_append, hcnt, hδ₂], ?_⟩
      have hlt : k + 1 < δ₁.length := by
        have := List.get?_eq_some.mp hget
        exact this.1
      rw [List.get?_append hlt]
      exact hget

theorem pingRel_fire (A B : List SSE) (i : Int) (bk : BlockKind)
    (hA_BS : A.countP isBlockStartEv = 0) (hA_P : A.countP isPingEv = 0)
    (hB_P : B.countP isPingEv = 0) :
    pingRel true (A ++ SSE.contentBlockStart i bk :: SSE.ping :: B) false := by
  simp only [pingRel, if_pos]
  have hfa : firstIdxP isBlockStartEv (A ++ SSE.contentBlockStart i bk :: SSE.ping :: B)
      = some A.length := by
    rw [firstIdxP_append_none _ _ _ ((firstIdxP_eq_none _ _).mpr hA_BS)]
    simp [firstIdxP, isBlockStartEv]
  rw [hfa]
  refine ⟨by trivial, ?_, ?_⟩
  · rw [List.countP_append, hA_P]
    simp [List.countP_cons, isPingEv, hB_P]
  · rw [List.get?_append_right (by omega : A.length ≤ A.length + 1)]
    simp

theorem openTextBlock_ping (h : Handler) :
    pingRel h.pingPending (openTextBlock h).2 (openTextBlock h).1.pingPending := by
  unfold openTextBlock
  split
  · dsimp only
    split
    · rename_i hp
      have hp' : h.pingPending = true := hp
      rw [hp']
      exact pingRel_fire [] [] _ _ rfl rfl rfl
    · rename_i hp
      have hp' : h.pingPending = false := by simpa using hp
      rw [hp']
      exact pingRel_false _ (by simp [List.countP_cons, isPingEv])
  · exact pingRel_refl _

theorem openTextBlock_ms (h : Handler) :
    (openTextBlock h).1.messageStartSent = h.messageStartSent := by
  unfold openTextBlock
  split
  · dsimp only
    split <;> rfl
  · rfl

theorem openTextBlock_msCount (h : Handler) :
    (openTextBlock h).2.countP isMessageStartEv = 0 := by
  unfold openTextBlock
  split
  · dsimp only
    split <;> simp [List.countP_cons, isMessageStartEv]
  · rfl

theorem openThinkingBlock_ping (h : Handler) :
    pingRel h.pingPending (openThinkingBlock h).2 (openThinkingBlock h).1.pingPending := by
  unfold openThinkingBlock
  dsimp only
  split
  · rename_i hp
    have hp' : h.pingPending = true := hp
    rw [hp']
    exact pingRel_fire [] [] _ _ rfl rfl rfl
  · rename_i hp
    have hp' : h.pingPending = false := by simpa using hp
    rw [hp']
    exact pingRel_false _ (by simp [List.countP_cons, isPingEv])

theorem openThinkingBlock_ms (h : Handler) :
    (openThinkingBlock h).1.messageStartSent = h.messageStartSent := by
  unfold openThinkingBlock
  dsimp only
  split <;> rfl

theorem openThinkingBlock_msCount (h : Handler) :
    (openThinkingBlock h).2.countP isMessageStartEv = 0 := by
  unfold openThinkingBlock
  dsimp only
  split <;> simp [List.countP_cons, isMessageStartEv]

theorem beforeTextStep_spec (h : Handler) (beforeText : GoStr) :
    ∀ h1 ev1,
      (if beforeText ≠ [] then
        match openTextBlock h with
        | (ha, ev0) =>
          ({ ha with responseBuffer := ha.responseBuffer ++ [beforeText] },
           ev0 ++ [SSE.contentBlockDelta ha.contentBlockIndex beforeText])
      else (h, ([] : List SSE))) = (h1, ev1) →
      ev1.countP isMessageStartEv = 0
      ∧ h1.messageStartSent = h.messageStartSent
      ∧ pingRel h.pingPending ev1 h1.pingPending := by
  intro h1 ev1 heq
  by_cases hbt : beforeText ≠ []
  · rw [if_pos hbt] at heq
    rcases hob : openTextBlock h with ⟨ha, ev0⟩
    rw [hob] at heq
    injection heq with hh hev
    subst hh
    subst hev
    have hcnt := openTextBlock_msCount h
    have hms := openTextBlock_ms h
    have hping := openTextBlock_ping h
    rw [hob] at hcnt hms hping
    refine ⟨?_, hms, ?_⟩
    · rw [List.countP_append, hcnt]
      simp [List.countP_cons, isMessageStartEv]
    · exact pingRel_append _ _ _ ev0 _ hping
        (pingRel_neutral _ _ (by simp [List.countP_cons, isBlockStartEv])
          (by simp [List.countP_cons, isPingEv]))
  · rw [if_neg hbt] at heq
    injection heq with hh hev
    subst hh
    subst hev
    exact ⟨rfl, rfl, pingRel_refl _⟩

theorem stopStep_spec (h1 : Handler) :
    ∀ h2 ev2,
      (if h1.contentBlockStartSent then
        ({ h1 with contentBlockStopSent := true, contentBlockStartSent := false },
         [SSE.contentBlockStop h1.contentBlockIndex])
      else (h1, ([] : List SSE))) = (h2, ev2) →
      ev2.countP isMessageStartEv = 0 ∧ ev2.countP isPingEv = 0
      ∧ ev2.countP isBlockStartEv = 0
      ∧ h2.messageStartSent = h1.messageStartSent
      ∧ h2.pingPending = h1.pingPending := by
  intro h2 ev2 heq
  by_cases hss : h1.contentBlockStartSent
  · rw [if_pos hss] at heq
    injection heq with hh hev
    subst hh
    subst hev
    refine ⟨?_, ?_, ?_, rfl, rfl⟩ <;>
      simp [List.countP_cons, isMessageStartEv, isPingEv, isBlockStartEv]
  · rw [if_neg hss] at heq
    injection heq with hh hev
    subst hh
    subst hev
    exact ⟨rfl, rfl, rfl, rfl, rfl⟩

theorem thinkOpenStep_spec (h : Handler) (beforeText : GoStr) :
    ∀ h4 evs, thinkOpenStep h beforeText = (h4, evs) →
      evs.countP isMessageStartEv = 0
      ∧ h4.messageStartSent = h.messageStartSent
      ∧ pingRel h.pingPending evs h4.pingPending := by
  intro h4 evs heq
  unfold thinkOpenStep at heq
  rcases h1e : (if beforeText ≠ [] then
      match openTextBlock h with
      | (ha, ev0) =>
        ({ ha with responseBuffer := ha.responseBuffer ++ [beforeText] },
         ev0 ++ [SSE.contentBlockDelta ha.contentBlockIndex beforeText])
    else (h, ([] : List SSE))) with ⟨h1, ev1⟩
  rw [h1e] at heq
  dsimp only at heq
  rcases h2e : (if h1.contentBlockStartSent then
      ({ h1 with contentBlockStopSent := true, contentBlockStartSent := false },
       [SSE.contentBlockStop h1.contentBlockIndex])
    else (h1, ([] : List SSE))) with ⟨h2, ev2⟩
  rw [h2e] at heq
  dsimp only at heq
  rcases h3e : openThinkingBlock h2 with ⟨h3, ev3⟩
  rw [h3e] at heq
  dsimp only at heq
  injection heq with hh hev
  subst hh
  subst hev
  obtain ⟨hc1, hm1, hp1⟩ := beforeTextStep_spec h beforeText h1 ev1 h1e
  obtain ⟨hc2, hpc2, hbc2, hm2, hp2⟩ := stopStep_spec h1 h2 ev2 h2e
  have hc3 := openThinkingBlock_msCount h2
  have hm3 := openThinkingBlock_ms h2
  have hp3 := openThinkingBlock_ping h2
  rw [h3e] at hc3 hm3 hp3
  refine ⟨?_, ?_, ?_⟩
  · simp only [List.countP_append, hc1, hc2, hc3]
  · show h3.messageStartSent = h.messageStartSent
    rw [hm3, hm2, hm1]
  · show pingRel h.pingPending (ev1 ++ ev2 ++ ev3) h3.pingPending
    refine pingRel_append _ _ _ _ _ ?_ hp3
    refine pingRel_append _ _ _ _ _ hp1 ?_
    rw [hp2]
    exact pingRel_neutral _ _ hbc2 hpc2

set_option maxHeartbeats 1000000 in
theorem scanLoop_master :
    ∀ (fuel : Nat) (st : ScanSt),
      ∃ δ, (scanLoop fuel st).events = st.events ++ δ
        ∧ δ.countP isMessageStartEv = 0
        ∧ (scanLoop fuel st).h.messageStartSent = st.h.messageStartSent
        ∧ pingRel st.h.pingPending δ (scanLoop fuel st).h.pingPending := by
  intro fuel
  induction fuel with
  | zero =>
    intro st
    exact ⟨[], by simp [scanLoop], rfl, rfl, pingRel_refl _⟩
  | succ fuel ih =>
    intro st
    rw [scanLoop]
    dsimp only
    split
    · split
      · -- not inside a thinking block: look for the start tag
        split
        · -- start tag found: run the composite open step, then recurse
          rename_i rel hrel
          rcases hts : thinkOpenStep st.h ((st.h.thinkBuffer.drop st.pos).take rel)
            with ⟨h4, evs⟩
          dsimp only
          obtain ⟨hc4, hm4, hp4⟩ := thinkOpenStep_spec st.h _ h4 evs hts
          obtain ⟨δ, hev, hcnt, hms, hping⟩ :=
            ih ⟨h4, rel + st.pos + thinkingStartTag.length, st.events ++ evs⟩
          refine ⟨evs ++ δ, ?_, ?_, ?_, ?_⟩
          · rw [hev]
            simp [List.append_assoc]
          · simp only [List.countP_append, hc4, hcnt]
          · rw [hms]
            exact hm4
          · exact pingRel_append _ _ _ _ _ hp4 hping
        · -- no start tag: flush the rest as text and break
          rcases hob : openTextBlock st.h with ⟨h1, ev1⟩
          dsimp only
          have hcnt := openTextBlock_msCount st.h
          have hms := openTextBlock_ms st.h
          have hping := openTextBlock_ping st.h
          rw [hob] at hcnt hms hping
          refine ⟨ev1 ++ [SSE.contentBlockDelta h1.contentBlockIndex
            (st.h.thinkBuffer.drop st.pos)], by simp [List.append_assoc], ?_, hms, ?_⟩
          · rw [List.countP_append, hcnt]
            simp [List.countP_cons, isMessageStartEv]
          · exact pingRel_append _ _ _ _ _ hping
              (pingRel_neutral _ _ (by simp [List.countP_cons, isBlockStartEv])
                (by simp [List.countP_cons, isPingEv]))
      · -- inside a thinking block: look for the end tag
        split
        · -- end tag found: close the thinking block and continue scanning
          rename_i rel hrel
          obtain ⟨δ, hev, hcnt, hms, hping⟩ :=
            ih (ScanSt.mk
              { st.h with contentBlockStopSent := true, contentBlockStartSent := false,
                          inThinkBlock := false }
              (rel + st.pos + thinkingEndTag.length)
              ((st.events
                ++ (if (st.h.thinkBuffer.drop st.pos).take rel ≠ [] then
                      [SSE.contentBlockDelta st.h.contentBlockIndex
                        ((st.h.thinkBuffer.drop st.pos).take rel)]
                    else []))
                ++ [SSE.contentBlockStop st.h.contentBlockIndex]))
          refine ⟨(if (st.h.thinkBuffer.drop st.pos).take rel ≠ [] then
                    [SSE.contentBlockDelta st.h.contentBlockIndex
                      ((st.h.thinkBuffer.drop st.pos).take rel)]
                  else [])
                  ++ [SSE.contentBlockStop st.h.contentBlockIndex] ++ δ, ?_, ?_, ?_, ?_⟩
          · rw [hev]
            simp [List.append_assoc]
          · simp only [List.countP_append, hcnt]
            split <;> simp [List.countP_cons, isMessageStartEv]
          · rw [hms]
          · refine pingRel_append _ _ _ _ _ ?_ hping
            refine pingRel_neutral _ _ ?_ ?_ <;>
              · rw [List.countP_append]
                split <;> simp [List.countP_cons, isBlockStartEv, isPingEv]
        · -- no end tag: flush the rest as thinking content and break
          refine ⟨[SSE.contentBlockDelta st.h.contentBlockIndex
            (st.h.thinkBuffer.drop st.pos)], by simp, ?_, rfl, ?_⟩
          · simp [List.countP_cons, isMessageStartEv]
          · exact pingRel_neutral _ _ (by simp [List.countP_cons, isBlockStartEv])
              (by simp [List.countP_cons, isPingEv])
    · exact ⟨[], by simp, rfl, rfl, pingRel_refl _⟩

theorem handleAssistantText_spec (h : Handler) (c : GoStr) :
    ∀ h2 ev2, handleAssistantText h c = (h2, ev2) →
      ev2.countP isMessageStartEv = 0
      ∧ h2.messageStartSent = h.messageStartSent
      ∧ pingRel h.pingPending ev2 h2.pingPending := by
  intro h2 ev2 heq
  unfold handleAssistantText at heq
  by_cases hc : c ≠ []
  · rw [if_pos hc] at heq
    dsimp only at heq
    rcases hsl : scanLoop ((h.thinkBuffer ++ c).length + 1)
        (ScanSt.mk { h with thinkBuffer := h.thinkBuffer ++ c } 0 []) with ⟨hf, pos, events⟩
    rw [hsl] at heq
    dsimp only at heq
    injection heq with hh hev
    subst hh
    subst hev
    obtain ⟨δ, hev', hcnt, hms, hping⟩ := scanLoop_master ((h.thinkBuffer ++ c).length + 1)
      (ScanSt.mk { h with thinkBuffer := h.thinkBuffer ++ c } 0 [])
    rw [hsl] at hev' hms hping
    dsimp only at hev' hms hping
    rw [List.nil_append] at hev'
    subst hev'
    exact ⟨hcnt, hms, hping⟩
  · rw [if_neg hc] at heq
    injection heq with hh hev
    subst hh
    subst hev
    exact ⟨rfl, rfl, pingRel_refl _⟩

theorem stepAssistantResponse_spec (h : Handler) (ty : GoStr)
    (fields : List (GoStr × GoValue)) :
    ∀ h2 ev2, stepAssistantResponse h ty fields = (h2, ev2) →
      ev2.countP isMessageStartEv = 0
      ∧ h2.messageStartSent = h.messageStartSent
      ∧ pingRel h.pingPending ev2 h2.pingPending := by
  intro h2 ev2 heq
  unfold stepAssistantResponse at heq
  by_cases hty : ty = goStr "assistantResponseEvent"
  · rw [if_pos hty] at heq
    dsimp only at heq
    rcases hcl : (if h.currentToolUse ≠ none ∧ !h.contentBlockStopSent then
        ({ h with contentBlockStopSent := true, currentToolUse := none },
         [SSE.contentBlockStop h.contentBlockIndex])
      else (h, ([] : List SSE))) with ⟨ha, ev0⟩
    rw [hcl] at heq
    dsimp only at heq
    rcases hat : handleAssistantText ha (objGetStr fields (goStr "content")) with ⟨hb, ev1⟩
    rw [hat] at heq
    dsimp only at heq
    injection heq with hh hev
    subst hh
    subst hev
    have hclose : ev0.countP isMessageStartEv = 0 ∧ ev0.countP isPingEv = 0
        ∧ ev0.countP isBlockStartEv = 0 ∧ ha.messageStartSent = h.messageStartSent
        ∧ ha.pingPending = h.pingPending := by
      by_cases hcond : h.currentToolUse ≠ none ∧ !h.contentBlockStopSent
      · rw [if_pos hcond] at hcl
        injection hcl with hh hev
        subst hh
        subst hev
        refine ⟨?_, ?_, ?_, rfl, rfl⟩ <;>
          simp [List.countP_cons, isMessageStartEv, isPingEv, isBlockStartEv]
      · rw [if_neg hcond] at hcl
        injection hcl with hh hev
        subst hh
        subst hev
        exact ⟨rfl, rfl, rfl, rfl, rfl⟩
    obtain ⟨hc0, hp0, hb0, hm0, hq0⟩ := hclose
    obtain ⟨hc1, hm1, hp1⟩ := handleAssistantText_spec ha _ hb ev1 hat
    refine ⟨?_, ?_, ?_⟩
    · rw [List.countP_append, hc0, hc1]
    · rw [hm1, hm0]
    · refine pingRel_append _ _ _ _ _ ?_ hp1
      rw [hq0]
      exact pingRel_neutral _ _ hb0 hp0
  · rw [if_neg hty] at heq
    injection heq with hh hev
    subst hh
    subst hev
    exact ⟨rfl, rfl, pingRel_refl _⟩

theorem toolOpenStep_spec (h : Handler) (tid tname : GoStr) :
    ∀ h1 ev1, toolOpenStep h tid tname = (h1, ev1) →
      ev1.countP isMessageStartEv = 0
      ∧ h1.messageStartSent = h.messageStartSent
      ∧ pingRel h.pingPending ev1 h1.pingPending := by
  intro h1 ev1 heq
  unfold toolOpenStep at heq
  rcases hstop : (if h.contentBlockStartSent ∧ !h.contentBlockStopSent then
      ({ h with contentBlockStopSent := true },
       [SSE.contentBlockStop h.contentBlockIndex])
    else (h, ([] : List SSE))) with ⟨ha, ev0⟩
  rw [hstop] at heq
  dsimp only at heq
  have hclose : ev0.countP isMessageStartEv = 0 ∧ ev0.countP isPingEv = 0
      ∧ ev0.countP isBlockStartEv = 0 ∧ ha.messageStartSent = h.messageStartSent
      ∧ ha.pingPending = h.pingPending := by
    by_cases hcond : h.contentBlockStartSent ∧ !h.contentBlockStopSent
    · rw [if_pos hcond] at hstop
      injection hstop with hh hev
      subst hh
      subst hev
      refine ⟨?_, ?_, ?_, rfl, rfl⟩ <;>
        simp [List.countP_cons, isMessageStartEv, isPingEv, isBlockStartEv]
    · rw [if_neg hcond] at hstop
      injection hstop with hh hev
      subst hh
      subst hev
      exact ⟨rfl, rfl, rfl, rfl, rfl⟩
  obtain ⟨hc0, hp0, hb0, hm0, hq0⟩ := hclose
  by_cases hp : ha.pingPending = true
  · rw [if_pos hp] at heq
    dsimp only at heq
    injection heq with hh hev
    subst hh
    subst hev
    refine ⟨?_, hm0, ?_⟩
    · rw [List.countP_append, hc0]
      simp [List.countP_cons, isMessageStartEv]
    · rw [← hq0, hp]
      exact pingRel_fire ev0 [] _ _ hb0 hp0 rfl
  · rw [if_neg hp] at heq
    dsimp only at heq
    injection heq with hh hev
    subst hh
    subst hev
    have hpf : ha.pingPending = false := by
      cases hx : ha.pingPending
      · rfl
      · exact absurd hx hp
    refine ⟨?_, hm0, ?_⟩
    · rw [List.countP_append, hc0]
      simp [List.countP_cons, isMessageStartEv]
    · rw [← hq0, hpf]
      refine pingRel_false _ ?_
      rw [List.countP_append, hp0]
      simp [List.countP_cons, isPingEv]

theorem stepToolUse_spec (h : Handler) (ty : GoStr)
    (fields : List (GoStr × GoValue)) :
    ∀ h3 ev3, stepToolUse h ty fields = (h3, ev3) →
      ev3.countP isMessageStartEv = 0
      ∧ h3.messageStartSent = h.messageStartSent
      ∧ pingRel h.pingPending ev3 h3.pingPending := by
  intro hX evX heq
  unfold stepToolUse at heq
  by_cases hty : ty = goStr "toolUseEvent"
  · rw [if_pos hty] at heq
    dsimp only at heq
    rcases hopen : (if objGetStr fields (goStr "toolUseId") ≠ []
          ∧ objGetStr fields (goStr "name") ≠ [] ∧ h.currentToolUse = none then
        toolOpenStep h (objGetStr fields (goStr "toolUseId"))
          (objGetStr fields (goStr "name"))
      else (h, ([] : List SSE))) with ⟨h1, ev1⟩
    rw [hopen] at heq
    dsimp only at heq
    have hfst : ev1.countP isMessageStartEv = 0 ∧ h1.messageStartSent = h.messageStartSent
        ∧ pingRel h.pingPending ev1 h1.pingPending := by
      by_cases hcond : objGetStr fields (goStr "toolUseId") ≠ []
          ∧ objGetStr fields (goStr "name") ≠ [] ∧ h.currentToolUse = none
      · rw [if_pos hcond] at hopen
        exact toolOpenStep_spec h _ _ h1 ev1 hopen
      · rw [if_neg hcond] at hopen
        injection hopen with hh hev
        subst hh
        subst hev
        exact ⟨rfl, rfl, pingRel_refl _⟩
    rcases hmid : (match h1.currentToolUse,
        (match objLookup fields (goStr "input") with
         | some GoValue.null => none
         | v => v) with
      | some _, some v =>
        ({ h1 with toolInputBuffer := h1.toolInputBuffer ++ [toolInputFragment v] },
         [SSE.toolUseInputDelta h1.contentBlockIndex (toolInputFragment v)])
      | _, _ => (h1, ([] : List SSE))) with ⟨h2, ev2⟩
    rw [hmid] at heq
    dsimp only at heq
    have hsnd : ev2.countP isMessageStartEv = 0 ∧ ev2.countP isPingEv = 0
        ∧ ev2.countP isBlockStartEv = 0 ∧ h2.messageStartSent = h1.messageStartSent
        ∧ h2.pingPending = h1.pingPending := by
      rcases hcu : h1.currentToolUse with _ | u
      · rw [hcu] at hmid
        dsimp only at hmid
        injection hmid with hh hev
        subst hh
        subst hev
        exact ⟨rfl, rfl, rfl, rfl, rfl⟩
      · rw [hcu] at hmid
        rcases hti : (match objLookup fields (goStr "input") with
            | some GoValue.null => none
            | v => v) with _ | v
        · rw [hti] at hmid
          dsimp only at hmid
          injection hmid with hh hev
          subst hh
          subst hev
          exact ⟨rfl, rfl, rfl, rfl, rfl⟩
        · rw [hti] at hmid
          dsimp only at hmid
          injection hmid with hh hev
          subst hh
          subst hev
          refine ⟨?_, ?_, ?_, rfl, rfl⟩ <;>
            simp [List.countP_cons, isMessageStartEv, isPingEv, isBlockStartEv]
    rcases hstp : (if objGetBool fields (goStr "stop") ∧ h2.currentToolUse ≠ none then
        ({ h2 with allToolInputs := h2.allToolInputs ++ [goJoin h2.toolInputBuffer []],
                   contentBlockStopSent := true,
                   contentBlockStarted := false,
                   currentToolUse := none,
                   toolUseID := [], toolName := [],
                   toolInputBuffer := [] },
         [SSE.contentBlockStop h2.contentBlockIndex])
      else (h2, ([] : List SSE))) with ⟨h3, ev3⟩
    rw [hstp] at heq
    dsimp only at heq
    injection heq with hh hev
    subst hh
    subst hev
    have hthd : ev3.countP isMessageStartEv = 0 ∧ ev3.countP isPingEv = 0
        ∧ ev3.countP isBlockStartEv = 0 ∧ h3.messageStartSent = h2.messageStartSent
        ∧ h3.pingPending = h2.pingPending := by
      by_cases hcond : objGetBool fields (goStr "stop") ∧ h2.currentToolUse ≠ none
      · rw [if_pos hcond] at hstp
        injection hstp with hh hev
        subst hh
        subst hev
        refine ⟨?_, ?_, ?_, rfl, rfl⟩ <;>
          simp [List.countP_cons, isMessageStartEv, isPingEv, isBlockStartEv]
      · rw [if_neg hcond] at hstp
        injection hstp with hh hev
        subst hh
        subst hev
        exact ⟨rfl, rfl, rfl, rfl, rfl⟩
    obtain ⟨hc1, hm1, hp1⟩ := hfst
    obtain ⟨hc2, hpc2, hbc2, hm2, hq2⟩ := hsnd
    obtain ⟨hc3, hpc3, hbc3, hm3, hq3⟩ := hthd
    refine ⟨?_, ?_, ?_⟩
    · simp only [List.countP_append, hc1, hc2, hc3]
    · rw [hm3, hm2, hm1]
    · refine pingRel_append _ h2.pingPending _ _ _ ?_ ?_
      · refine pingRel_append _ h1.pingPending _ _ _ hp1 ?_
        rw [hq2]
        exact pingRel_neutral _ _ hbc2 hpc2
      · rw [hq3]
        exact pingRel_neutral _ _ hbc3 hpc3
  · rw [if_neg hty] at heq
    injection heq with hh hev
    subst hh
    subst hev
    exact ⟨rfl, rfl, pingRel_refl _⟩

theorem stepAssistantEnd_spec (h : Handler) (ty : GoStr) :
    ∀ h1 ev1, stepAssistantEnd h ty = (h1, ev1) →
      ev1.countP isMessageStartEv = 0 ∧ ev1.countP isPingEv = 0
      ∧ ev1.countP isBlockStartEv = 0
      ∧ h1.messageStartSent = h.messageStartSent
      ∧ h1.pingPending = h.pingPending := by
  intro h1 ev1 heq
  unfold stepAssistantEnd at heq
  split at heq
  · split at heq
    · injection heq with hh hev
      subst hh
      subst hev
      refine ⟨?_, ?_, ?_, rfl, rfl⟩ <;>
        simp [List.countP_cons, isMessageStartEv, isPingEv, isBlockStartEv]
    · injection heq with hh hev
      subst hh
      subst hev
      exact ⟨rfl, rfl, rfl, rfl, rfl⟩
  · injection heq with hh hev
    subst hh
    subst hev
    exact ⟨rfl, rfl, rfl, rfl, rfl⟩

theorem stepInitialResponse_inert (h : Handler) (ty : GoStr)
    (fields : List (GoStr × GoValue)) (hms : h.messageStartSent = true) :
    stepInitialResponse h ty fields = (h, []) := by
  unfold stepInitialResponse
  split
  · simp [hms]
  · rfl

theorem stepInitialResponse_msCount (h : Handler) (ty : GoStr)
    (fields : List (GoStr × GoValue)) :
    ∀ h1 ev1, stepInitialResponse h ty fields = (h1, ev1) →
      ev1.countP isMessageStartEv + (if h.messageStartSent = true then 1 else 0)
        ≤ (if h1.messageStartSent = true then 1 else 0) := by
  intro h1 ev1 heq
  unfold stepInitialResponse at heq
  split at heq
  · split at heq
    · rename_i hms
      have hms' : h.messageStartSent = false := by simpa using hms
      injection heq with hh hev
      subst hh
      subst hev
      rw [hms']
      simp [List.countP_cons, isMessageStartEv]
    · injection heq with hh hev
      subst hh
      subst hev
      simp
  · injection heq with hh hev
    subst hh
    subst hev
    simp

theorem handleEvent_spec (h : Handler) (ty : GoStr) (pl : GoValue)
    (hms : h.messageStartSent = true) :
    ∀ h4 δ, handleEvent h ty pl = (h4, δ) →
      δ.countP isMessageStartEv = 0
      ∧ h4.messageStartSent = true
      ∧ pingRel h.pingPending δ h4.pingPending := by
  intro h4 δ heq
  cases pl with
  | obj fields =>
    unfold handleEvent at heq
    dsimp only at heq
    rw [stepInitialResponse_inert h ty fields hms] at heq
    dsimp only at heq
    rcases h2e : stepAssistantResponse h ty fields with ⟨h2, ev2⟩
    rw [h2e] at heq
    dsimp only at heq
    rcases h3e : stepToolUse h2 ty fields with ⟨h3, ev3⟩
    rw [h3e] at heq
    dsimp only at heq
    rcases h4e : stepAssistantEnd h3 ty with ⟨h4x, ev4⟩
    rw [h4e] at heq
    dsimp only at heq
    injection heq with hh hev
    subst hh
    subst hev
    obtain ⟨hc2, hm2, hp2⟩ := stepAssistantResponse_spec h ty fields h2 ev2 h2e
    obtain ⟨hc3, hm3, hp3⟩ := stepToolUse_spec h2 ty fields h3 ev3 h3e
    obtain ⟨hc4, hpc4, hbc4, hm4, hq4⟩ := stepAssistantEnd_spec h3 ty h4x ev4 h4e
    refine ⟨?_, ?_, ?_⟩
    · simp only [List.countP_append, hc2, hc3, hc4, List.countP_nil]
    · rw [hm4, hm3, hm2]
      exact hms
    · refine pingRel_append _ h3.pingPending _ _ _ ?_ ?_
      · refine pingRel_append _ h2.pingPending _ _ _ ?_ hp3
        exact hp2
      · rw [hq4]
        exact pingRel_neutral _ _ hbc4 hpc4
  | str s =>
    unfold handleEvent at heq
    injection heq with hh hev
    subst hh
    subst hev
    exact ⟨rfl, hms, pingRel_refl _⟩
  | num n =>
    unfold handleEvent at heq
    injection heq with hh hev
    subst hh
    subst hev
    exact ⟨rfl, hms, pingRel_refl _⟩
  | bool b =>
    unfold handleEvent at heq
    injection heq with hh hev
    subst hh
    subst hev
    exact ⟨rfl, hms, pingRel_refl _⟩
  | null =>
    unfold handleEvent at heq
    injection heq with hh hev
    subst hh
    subst hev
    exact ⟨rfl, hms, pingRel_refl _⟩
  | arr xs =>
    unfold handleEvent at heq
    injection heq with hh hev
    subst hh
    subst hev
    exact ⟨rfl, hms, pingRel_refl _⟩

theorem handleEvent_msCount (h : Handler) (ty : GoStr) (pl : GoValue) :
    ∀ h4 δ, handleEvent h ty pl = (h4, δ) →
      δ.countP isMessageStartEv + (if h.messageStartSent = true then 1 else 0)
        ≤ (if h4.messageStartSent = true then 1 else 0) := by
  intro h4 δ heq
  cases pl with
  | obj fields =>
    unfold handleEvent at heq
    dsimp only at heq
    rcases h1e : stepInitialResponse h ty fields with ⟨h1, ev1⟩
    rw [h1e] at heq
    dsimp only at heq
    rcases h2e : stepAssistantResponse h1 ty fields with ⟨h2, ev2⟩
    rw [h2e] at heq
    dsimp only at heq
    rcases h3e : stepToolUse h2 ty fields with ⟨h3, ev3⟩
    rw [h3e] at heq
    dsimp only at heq
    rcases h4e : stepAssistantEnd h3 ty with ⟨h4x, ev4⟩
    rw [h4e] at heq
    dsimp only at heq
    injection heq with hh hev
    subst hh
    subst hev
    have hstep1 := stepInitialResponse_msCount h ty fields h1 ev1 h1e
    obtain ⟨hc2, hm2, _⟩ := stepAssistantResponse_spec h1 ty fields h2 ev2 h2e
    obtain ⟨hc3, hm3, _⟩ := stepToolUse_spec h2 ty fields h3 ev3 h3e
    obtain ⟨hc4, _, _, hm4, _⟩ := stepAssistantEnd_spec h3 ty h4x ev4 h4e
    rw [hm4, hm3, hm2]
    simp only [List.countP_append, hc2, hc3, hc4]
    omega
  | str s =>
    unfold handleEvent at heq
    injection heq with hh hev
    subst hh
    subst hev
    simp
  | num n =>
    unfold handleEvent at heq
    injection heq with hh hev
    subst hh
    subst hev
    simp
  | bool b =>
    unfold handleEvent at heq
    injection heq with hh hev
    subst hh
    subst hev
    simp
  | null =>
    unfold handleEvent at heq
    injection heq with hh hev
    subst hh
    subst hev
    simp
  | arr xs =>
    unfold handleEvent at heq
    injection heq with hh hev
    subst hh
    subst hev
    simp

theorem runHandler_spec :
    ∀ (events : List (GoStr × GoValue)) (h : Handler),
      h.messageStartSent = true →
      ∀ hf out, runHandler h events = (hf, out) →
        out.countP isMessageStartEv = 0
        ∧ hf.messageStartSent = true
        ∧ pingRel h.pingPending out hf.pingPending := by
  intro events
  induction events with
  | nil =>
    intro h hms hf out heq
    simp only [runHandler] at heq
    injection heq with hh hev
    subst hh
    subst hev
    exact ⟨rfl, hms, pingRel_refl _⟩
  | cons e rest ih =>
    obtain ⟨ty, pl⟩ := e
    intro h hms hf out heq
    rw [runHandler] at heq
    rcases h1e : handleEvent h ty pl with ⟨h1, ev1⟩
    rw [h1e] at heq
    dsimp only at heq
    rcases h2e : runHandler h1 rest with ⟨h2, ev2⟩
    rw [h2e] at heq
    dsimp only at heq
    injection heq with hh hev
    subst hh
    subst hev
    obtain ⟨hc1, hm1, hp1⟩ := handleEvent_spec h ty pl hms h1 ev1 h1e
    obtain ⟨hc2, hm2, hp2⟩ := ih h1 hm1 h2 ev2 h2e
    exact ⟨by rw [List.countP_append, hc1, hc2], hm2,
           pingRel_append _ _ _ _ _ hp1 hp2⟩

theorem runHandler_msCount :
    ∀ (events : List (GoStr × GoValue)) (h : Handler) hf out,
      runHandler h events = (hf, out) →
      out.countP isMessageStartEv + (if h.messageStartSent = true then 1 else 0)
        ≤ (if hf.messageStartSent = true then 1 else 0) := by
  intro events
  induction events with
  | nil =>
    intro h hf out heq
    simp only [runHandler] at heq
    injection heq with hh hev
    subst hh
    subst hev
    simp
  | cons e rest ih =>
    obtain ⟨ty, pl⟩ := e
    intro h hf out heq
    rw [runHandler] at heq
    rcases h1e : handleEvent h ty pl with ⟨h1, ev1⟩
    rw [h1e] at heq
    dsimp only at heq
    rcases h2e : runHandler h1 rest with ⟨h2, ev2⟩
    rw [h2e] at heq
    dsimp only at heq
    injection heq with hh hev
    subst hh
    subst hev
    have ha := handleEvent_msCount h ty pl h1 ev1 h1e
    have hb := ih h1 h2 ev2 h2e
    rw [List.countP_append]
    omega

theorem finish_spec (h : Handler) :
    (finish h).2.countP isMessageStartEv = 0
    ∧ (finish h).2.countP isPingEv = 0
    ∧ (finish h).2.countP isBlockStartEv = 0 := by
  unfold finish
  rcases hcl : (if h.contentBlockStarted ∧ !h.contentBlockStopSent then
      ({ h with contentBlockStopSent := true },
       [SSE.contentBlockStop h.contentBlockIndex])
    else (h, ([] : List SSE))) with ⟨h1, ev1⟩
  rw [hcl]
  dsimp only
  have hev1 : ev1.countP isMessageStartEv = 0 ∧ ev1.countP isPingEv = 0
      ∧ ev1.countP isBlockStartEv = 0 := by
    by_cases hcond : h.contentBlockStarted ∧ !h.contentBlockStopSent
    · rw [if_pos hcond] at hcl
      injection hcl with hh hev
      subst hev
      refine ⟨?_, ?_, ?_⟩ <;>
        simp [List.countP_cons, isMessageStartEv, isPingEv, isBlockStartEv]
    · rw [if_neg hcond] at hcl
      injection hcl with hh hev
      subst hev
      exact ⟨rfl, rfl, rfl⟩
  refine ⟨?_, ?_, ?_⟩ <;>
    · rw [List.countP_append]
      simp [hev1.1, hev1.2.1, hev1.2.2, List.countP_cons,
            isMessageStartEv, isPingEv, isBlockStartEv]

theorem handleEvent_fresh_initial (model : GoStr) (tok : Nat)
    (fields : List (GoStr × GoValue)) :
    (handleEvent (newHandler model tok) (goStr "initial-response")
        (GoValue.obj fields)).2
      = [SSE.messageStart model tok generateMessageID]
    ∧ (handleEvent (newHandler model tok) (goStr "initial-response")
        (GoValue.obj fields)).1.messageStartSent = true
    ∧ (handleEvent (newHandler model tok) (goStr "initial-response")
        (GoValue.obj fields)).1.pingPending = true :=
  ⟨rfl, rfl, rfl⟩

theorem runAll_initial_decomp (model : GoStr) (tok : Nat)
    (fields : List (GoStr × GoValue)) (rest : List (GoStr × GoValue)) :
    ∃ (h1 h2 : Handler) (ev2 : List SSE),
      h1.messageStartSent = true ∧ h1.pingPending = true
      ∧ runHandler h1 rest = (h2, ev2)
      ∧ runAll model tok ((goStr "initial-response", GoValue.obj fields) :: rest)
        = SSE.messageStart model tok generateMessageID :: (ev2 ++ (finish h2).2) := by
  rcases hh1 : handleEvent (newHandler model tok) (goStr "initial-response")
      (GoValue.obj fields) with ⟨h1, ev1⟩
  obtain ⟨e2, em, ep⟩ := handleEvent_fresh_initial model tok fields
  rw [hh1] at e2 em ep
  dsimp only at e2 em ep
  rcases hrr : runHandler h1 rest with ⟨h2, ev2⟩
  refine ⟨h1, h2, ev2, em, ep, hrr, ?_⟩
  unfold runAll
  rw [runHandler, hh1]
  dsimp only
  rw [hrr]
  dsimp only
  rcases hfin : finish h2 with ⟨hg, fin⟩
  dsimp only
  rw [e2]
  simp

theorem msPrecedes_cons_ms (m : GoStr) (tok : Nat) (mid : GoStr) (l : List SSE) :
    msPrecedesFirstBS (SSE.messageStart m tok mid :: l) = true := by
  have hbs : firstIdxP isBlockStartEv (SSE.messageStart m tok mid :: l)
      = (firstIdxP isBlockStartEv l).map (· + 1) := rfl
  have hms : firstIdxP isMessageStartEv (SSE.messageStart m tok mid :: l) = some 0 := rfl
  unfold msPrecedesFirstBS
  rw [hbs, hms]
  cases firstIdxP isBlockStartEv l with
  | none => rfl
  | some k => simp

/-- C6 (amended): `message_start` is emitted at most once over any run;
and in every run whose first processed event is an `initial-response`
carrying an object payload, the `message_start` strictly precedes the
first `content_block_start` of the output. -/
theorem c6_message_start_once_and_first :
    (∀ (model : GoStr) (inputTokens : Nat) (events : List (GoStr × GoValue)),
        (runAll model inputTokens events).countP isMessageStartEv ≤ 1)
    ∧ (∀ (model : GoStr) (inputTokens : Nat) (fields : List (GoStr × GoValue))
          (rest : List (GoStr × GoValue)),
        msPrecedesFirstBS (runAll model inputTokens
          ((goStr "initial-response", GoValue.obj fields) :: rest)) = true) := by
  constructor
  · intro model inputTokens events
    rcases hrh : runHandler (newHandler model inputTokens) events with ⟨hf, out⟩
    rcases hfin : finish hf with ⟨hg, fin⟩
    have hred : runAll model inputTokens events = out ++ fin := by
      unfold runAll
      rw [hrh]
      dsimp only
      rw [hfin]
    rw [hred, List.countP_append]
    have h1 := runHandler_msCount events (newHandler model inputTokens) hf out hrh
    have hnh : (newHandler model inputTokens).messageStartSent = false := rfl
    rw [hnh] at h1
    have h2 := (finish_spec hf).1
    rw [hfin] at h2
    dsimp only at h2
    simp only [Bool.false_eq_true, if_false] at h1
    have h3 : (if hf.messageStartSent = true then 1 else 0) ≤ 1 := by
      split <;> omega
    omega
  · intro model inputTokens fields rest
    obtain ⟨h1, h2, ev2, hm1, hp1, hrr, hout⟩ :=
      runAll_initial_decomp model inputTokens fields rest
    rw [hout]
    exact msPrecedes_cons_ms _ _ _ _

theorem c6_message_start_once_and_first_witness :
    (runAll (goStr "m") 0 [(goStr "initial-response", GoValue.obj [])]).countP
        isMessageStartEv ≤ 1
    ∧ msPrecedesFirstBS (runAll (goStr "m") 0
        ((goStr "initial-response", GoValue.obj []) :: [])) = true :=
  ⟨c6_message_start_once_and_first.1 (goStr "m") 0 _,
   c6_message_start_once_and_first.2 (goStr "m") 0 [] []⟩

/-- C7 (amended): in every run whose first processed event is an
`initial-response` carrying an object payload and whose output opens at
least one content block, exactly one `ping` is emitted, immediately after
the first `content_block_start`. -/
theorem c7_ping_after_first_block_start
    (model : GoStr) (inputTokens : Nat) (fields : List (GoStr × GoValue))
    (rest : List (GoStr × GoValue))
    (hbs : (firstIdxP isBlockStartEv (runAll model inputTokens
      ((goStr "initial-response", GoValue.obj fields) :: rest))).isSome = true) :
    pingRightAfterFirstBS (runAll model inputTokens
      ((goStr "initial-response", GoValue.obj fields) :: rest)) = true := by
  obtain ⟨h1, h2, ev2, hm1, hp1, hrr, hout⟩ :=
    runAll_initial_decomp model inputTokens fields rest
  rw [hout] at hbs ⊢
  obtain ⟨hc2, hm2, hp2⟩ := runHandler_spec rest h1 hm1 h2 ev2 hrr
  rw [hp1] at hp2
  obtain ⟨hfms, hfping, hfbs⟩ := finish_spec h2
  have hδ : pingRel true (ev2 ++ (finish h2).2) h2.pingPending :=
    pingRel_append _ _ _ _ _ hp2 (pingRel_neutral _ _ hfbs hfping)
  have hcons : firstIdxP isBlockStartEv
      (SSE.messageStart model inputTokens generateMessageID :: (ev2 ++ (finish h2).2))
      = (firstIdxP isBlockStartEv (ev2 ++ (finish h2).2)).map (· + 1) := rfl
  rw [hcons] at hbs
  cases hfk : firstIdxP isBlockStartEv (ev2 ++ (finish h2).2) with
  | none =>
    rw [hfk] at hbs
    simp at hbs
  | some k =>
    unfold pingRel at hδ
    rw [if_pos rfl, hfk] at hδ
    obtain ⟨hq, hcount, hget⟩ := hδ
    unfold pingRightAfterFirstBS
    rw [hcons, hfk]
    dsimp only [Option.map]
    have hcnt' : (SSE.messageStart model inputTokens generateMessageID ::
        (ev2 ++ (finish h2).2)).countP isPingEv = 1 := by
      rw [List.countP_cons]
      simp [isPingEv, hcount]
    have hget' : (SSE.messageStart model inputTokens generateMessageID ::
        (ev2 ++ (finish h2).2)).get? (k + 1 + 1) = some SSE.ping := by
      rw [List.get?_cons_succ]
      exact hget
    rw [hcnt', hget']
    simp

set_option maxHeartbeats 1000000 in
theorem c7_ping_after_first_block_start_witness :
    (firstIdxP isBlockStartEv (runAll (goStr "m") 0
      ((goStr "initial-response", GoValue.obj []) ::
       [(goStr "assistantResponseEvent",
         GoValue.obj [(goStr "content", GoValue.str (goStr "hi"))])]))).isSome = true
    ∧ pingRightAfterFirstBS (runAll (goStr "m") 0
      ((goStr "initial-response", GoValue.obj []) ::
       [(goStr "assistantResponseEvent",
         GoValue.obj [(goStr "content", GoValue.str (goStr "hi"))])])) = true :=
  ⟨by rfl,
   c7_ping_after_first_block_start (goStr "m") 0 []
     [(goStr "assistantResponseEvent",
       GoValue.obj [(goStr "content", GoValue.str (goStr "hi"))])] (by rfl)⟩

theorem goIndexAux_startTag_none (s : GoStr) (hs : '<' ∉ s) :
    ∀ i, goIndexAux s thinkingStartTag i = none := by
  induction s with
  | nil =>
    intro i
    rw [goIndexAux]
    simp [show leadsWith thinkingStartTag [] = false from rfl]
  | cons a t ih =>
    intro i
    have hne : ¬(('<' : Char) = a) := fun hlt => hs (by rw [hlt]; exact List.mem_cons_self a t)
    have hlw : leadsWith thinkingStartTag (a :: t) = false := by
      rw [show thinkingStartTag = '<' :: goStr "thinking>" from rfl, leadsWith]
      simp [hne]
    rw [goIndexAux, hlw]
    simp only [Bool.false_eq_true, if_false]
    exact ih (fun hm => hs (List.mem_cons_of_mem a hm)) (i + 1)

theorem goIndex_startTag_none (s : GoStr) (hs : '<' ∉ s) :
    goIndex s thinkingStartTag = none :=
  goIndexAux_startTag_none s hs 0

theorem scanLoop_noTag_eq (fuel : Nat) (st : ScanSt)
    (hpos : st.pos < st.h.thinkBuffer.length)
    (hitb : st.h.inThinkBlock = false)
    (hnone : goIndex (st.h.thinkBuffer.drop st.pos) thinkingStartTag = none) :
    ∀ h1 ev1, openTextBlock st.h = (h1, ev1) →
    scanLoop (fuel + 1) st =
      ⟨{ h1 with responseBuffer := h1.responseBuffer ++ [st.h.thinkBuffer.drop st.pos],
                 thinkBuffer := [] },
       st.pos,
       st.events ++ ev1
         ++ [SSE.contentBlockDelta h1.contentBlockIndex (st.h.thinkBuffer.drop st.pos)]⟩ := by
  intro h1 ev1 hob
  have hcond : (!st.h.inThinkBlock) = true := by rw [hitb]; rfl
  rw [scanLoop]
  dsimp only
  rw [if_pos hpos, if_pos hcond, hnone]
  dsimp only
  rw [hob]

theorem openTextBlock_fields (h : Handler) :
    ∀ h1 ev1, openTextBlock h = (h1, ev1) →
      h1.inThinkBlock = h.inThinkBlock ∧ h1.currentToolUse = h.currentToolUse
      ∧ h1.allToolInputs = h.allToolInputs ∧ h1.inputTokens = h.inputTokens
      ∧ h1.responseBuffer = h.responseBuffer := by
  intro h1 ev1 heq
  unfold openTextBlock at heq
  split at heq
  · dsimp only at heq
    split at heq
    · injection heq with hh hev
      subst hh
      exact ⟨rfl, rfl, rfl, rfl, rfl⟩
    · injection heq with hh hev
      subst hh
      exact ⟨rfl, rfl, rfl, rfl, rfl⟩
  · injection heq with hh hev
    subst hh
    exact ⟨rfl, rfl, rfl, rfl, rfl⟩

theorem handleAssistantText_tagFree (h : Handler) (c : GoStr)
    (hitb : h.inThinkBlock = false) (htb : h.thinkBuffer = [])
    (hnotag : goIndex c thinkingStartTag = none) :
    ∀ h2 ev2, handleAssistantText h c = (h2, ev2) →
      h2.inThinkBlock = false ∧ h2.thinkBuffer = []
      ∧ h2.currentToolUse = h.currentToolUse
      ∧ h2.allToolInputs = h.allToolInputs ∧ h2.inputTokens = h.inputTokens
      ∧ concatLen h2.responseBuffer = concatLen h.responseBuffer + c.length := by
  intro h2 ev2 heq
  unfold handleAssistantText at heq
  by_cases hc : c ≠ []
  · rw [if_pos hc] at heq
    dsimp only at heq
    rcases hob : openTextBlock { h with thinkBuffer := h.thinkBuffer ++ c } with ⟨h1, ev1⟩
    have hsl := scanLoop_noTag_eq ((h.thinkBuffer ++ c).length)
      (ScanSt.mk { h with thinkBuffer := h.thinkBuffer ++ c } 0 [])
      (by show 0 < (h.thinkBuffer ++ c).length
          rw [htb]
          simpa using List.length_pos.mpr hc)
      hitb
      (by show goIndex ((h.thinkBuffer ++ c).drop 0) thinkingStartTag = none
          rw [htb]
          simpa using hnotag)
      h1 ev1 hob
    rw [hsl] at heq
    dsimp only at heq
    injection heq with hh hev
    subst hh
    subst hev
    obtain ⟨hi1, hc1, ha1, hk1, hr1⟩ := openTextBlock_fields _ h1 ev1 hob
    refine ⟨hi1.trans hitb, ?_, hc1, ha1, hk1, ?_⟩
    · simp
    · rw [hr1]
      show concatLen (h.responseBuffer ++ [(h.thinkBuffer ++ c).drop 0]) = _
      rw [htb]
      simp [concatLen]
  · rw [if_neg hc] at heq
    injection heq with hh hev
    subst hh
    have hc' : c = [] := by simpa using hc
    subst hc'
    exact ⟨hitb, htb, rfl, rfl, rfl, by simp⟩

theorem stepAssistantResponse_tagFree (h : Handler) (c : GoStr)
    (hitb : h.inThinkBlock = false) (htb : h.thinkBuffer = [])
    (hctu : h.currentToolUse = none)
    (hnotag : goIndex c thinkingStartTag = none) :
    ∀ h2 ev2, stepAssistantResponse h (goStr "assistantResponseEvent")
        [(goStr "content", GoValue.str c)] = (h2, ev2) →
      h2.inThinkBlock = false ∧ h2.thinkBuffer = [] ∧ h2.currentToolUse = none
      ∧ h2.allToolInputs = h.allToolInputs ∧ h2.inputTokens = h.inputTokens
      ∧ concatLen h2.responseBuffer = concatLen h.responseBuffer + c.length := by
  intro h2 ev2 heq
  unfold stepAssistantResponse at heq
  rw [if_pos rfl] at heq
  dsimp only at heq
  rw [if_neg (by simp [hctu])] at heq
  dsimp only at heq
  rw [show objGetStr [(goStr "content", GoValue.str c)] (goStr "content") = c from rfl] at heq
  rcases hat : handleAssistantText h c with ⟨hb, ev1⟩
  rw [hat] at heq
  dsimp only at heq
  injection heq with hh hev
  subst hh
  subst hev
  obtain ⟨hi1, ht1, hc1, ha1, hk1, hr1⟩ :=
    handleAssistantText_tagFree h c hitb htb hnotag hb ev1 hat
  exact ⟨hi1, ht1, hc1.trans hctu, ha1, hk1, hr1⟩

theorem handleEvent_tagFree (h : Handler) (c : GoStr)
    (hitb : h.inThinkBlock = false) (htb : h.thinkBuffer = [])
    (hctu : h.currentToolUse = none)
    (hnotag : goIndex c thinkingStartTag = none) :
    ∀ h4 δ, handleEvent h (goStr "assistantResponseEvent")
        (GoValue.obj [(goStr "content", GoValue.str c)]) = (h4, δ) →
      h4.inThinkBlock = false ∧ h4.thinkBuffer = [] ∧ h4.currentToolUse = none
      ∧ h4.allToolInputs = h.allToolInputs ∧ h4.inputTokens = h.inputTokens
      ∧ concatLen h4.responseBuffer = concatLen h.responseBuffer + c.length := by
  intro h4 δ heq
  unfold handleEvent at heq
  dsimp only at heq
  rw [show stepInitialResponse h (goStr "assistantResponseEvent")
      [(goStr "content", GoValue.str c)] = (h, []) from rfl] at heq
  dsimp only at heq
  rcases h2e : stepAssistantResponse h (goStr "assistantResponseEvent")
      [(goStr "content", GoValue.str c)] with ⟨h2, ev2⟩
  rw [h2e] at heq
  dsimp only at heq
  rw [show stepToolUse h2 (goStr "assistantResponseEvent")
      [(goStr "content", GoValue.str c)] = (h2, []) from rfl] at heq
  dsimp only at heq
  rw [show stepAssistantEnd h2 (goStr "assistantResponseEvent") = (h2, []) from rfl] at heq
  dsimp only at heq
  injection heq with hh hev
  subst hh
  subst hev
  exact stepAssistantResponse_tagFree h c hitb htb hctu hnotag h2 ev2 h2e

theorem runHandler_tagFree :
    ∀ (contents : List GoStr) (h : Handler),
      h.inThinkBlock = false → h.thinkBuffer = [] → h.currentToolUse = none →
      (∀ c ∈ contents, '<' ∉ c) →
      ∀ hf out,
        runHandler h (contents.map fun c =>
          (goStr "assistantResponseEvent",
           GoValue.obj [(goStr "content", GoValue.str c)])) = (hf, out) →
        hf.allToolInputs = h.allToolInputs ∧ hf.inputTokens = h.inputTokens
        ∧ concatLen hf.responseBuffer
            = concatLen h.responseBuffer + (contents.map List.length).sum := by
  intro contents
  induction contents with
  | nil =>
    intro h _ _ _ _ hf out heq
    simp only [List.map_nil, runHandler] at heq
    injection heq with hh hev
    subst hh
    exact ⟨rfl, rfl, by simp⟩
  | cons c cs ih =>
    intro h hitb htb hctu htf hf out heq
    simp only [List.map_cons] at heq
    rw [runHandler] at heq
    rcases h1e : handleEvent h (goStr "assistantResponseEvent")
        (GoValue.obj [(goStr "content", GoValue.str c)]) with ⟨h1, ev1⟩
    rw [h1e] at heq
    dsimp only at heq
    rcases hre : runHandler h1 (cs.map fun c =>
        (goStr "assistantResponseEvent",
         GoValue.obj [(goStr "content", GoValue.str c)])) with ⟨h2, ev2⟩
    rw [hre] at heq
    dsimp only at heq
    injection heq with hh hev
    subst hh
    subst hev
    obtain ⟨hi1, ht1, hc1, ha1, hk1, hr1⟩ := handleEvent_tagFree h c hitb htb hctu
      (goIndex_startTag_none c (htf c (List.mem_cons_self c cs))) h1 ev1 h1e
    obtain ⟨ha2, hk2, hr2⟩ := ih h1 hi1 ht1 hc1
      (fun x hx => htf x (List.mem_cons_of_mem c hx)) _ ev2 hre
    refine ⟨ha2.trans ha1, hk2.trans hk1, ?_⟩
    rw [hr2, hr1, List.map_cons, List.sum_cons]
    omega

theorem ite_lt_one_max (m : Nat) : (if m < 1 then 1 else m) = max 1 m := by
  rcases Nat.lt_or_ge m 1 with hm | hm
  · have h0 : m = 0 := Nat.lt_one_iff.mp hm
    subst h0
    rfl
  · rw [if_neg (Nat.not_lt.mpr hm), Nat.max_eq_right hm]

/-- C5 (amended): the output-token count reported by the final
`message_delta`/`message_stop` is `max 1 ((text + tool input) / 4)` with
Go's flooring integer division, not a ceiling.  For a run of plain text
fragments containing no `<` (hence no thinking tags), the last emitted
event reports exactly `max 1 (total text length / 4)`; an empty run
reports 1. -/
theorem c5_output_tokens_floor (model : GoStr) (inputTokens : Nat)
    (contents : List GoStr) (htf : ∀ c ∈ contents, '<' ∉ c) :
    (runAll model inputTokens (contents.map fun c =>
      (goStr "assistantResponseEvent",
       GoValue.obj [(goStr "content", GoValue.str c)]))).getLast?
      = some (SSE.messageStop inputTokens
          (max 1 ((contents.map List.length).sum / 4)) none) := by
  rcases hrh : runHandler (newHandler model inputTokens) (contents.map fun c =>
      (goStr "assistantResponseEvent",
       GoValue.obj [(goStr "content", GoValue.str c)])) with ⟨hf, out⟩
  obtain ⟨hati, htok, hrb⟩ := runHandler_tagFree contents (newHandler model inputTokens)
    rfl rfl rfl htf hf out hrh
  rcases hcl : (if hf.contentBlockStarted ∧ !hf.contentBlockStopSent then
      ({ hf with contentBlockStopSent := true },
       [SSE.contentBlockStop hf.contentBlockIndex])
    else (hf, ([] : List SSE))) with ⟨h1, ev1⟩
  have hfields : h1.responseBuffer = hf.responseBuffer
      ∧ h1.allToolInputs = hf.allToolInputs ∧ h1.inputTokens = hf.inputTokens := by
    by_cases hcond : hf.contentBlockStarted ∧ !hf.contentBlockStopSent
    · rw [if_pos hcond] at hcl
      injection hcl with hh hev
      subst hh
      exact ⟨rfl, rfl, rfl⟩
    · rw [if_neg hcond] at hcl
      injection hcl with hh hev
      subst hh
      exact ⟨rfl, rfl, rfl⟩
  have hfin : finish hf = (h1, ev1 ++ [SSE.messageStop h1.inputTokens
      (if (concatLen h1.responseBuffer + concatLen h1.allToolInputs) / 4 < 1 then 1
       else (concatLen h1.responseBuffer + concatLen h1.allToolInputs) / 4) none]) := by
    unfold finish
    rw [hcl]
  have hout : runAll model inputTokens (contents.map fun c =>
      (goStr "assistantResponseEvent",
       GoValue.obj [(goStr "content", GoValue.str c)]))
      = (out ++ ev1) ++ [SSE.messageStop h1.inputTokens
      (if (concatLen h1.responseBuffer + concatLen h1.allToolInputs) / 4 < 1 then 1
       else (concatLen h1.responseBuffer + concatLen h1.allToolInputs) / 4) none] := by
    unfold runAll
    rw [hrh]
    dsimp only
    rw [hfin]
    dsimp only
    rw [List.append_assoc]
  rw [hout, List.getLast?_concat]
  have hati' : hf.allToolInputs = [] := hati
  have htok' : hf.inputTokens = inputTokens := htok
  have hrb' : concatLen hf.responseBuffer = (contents.map List.length).sum := by
    rw [hrb]
    show concatLen [] + _ = _
    simp [concatLen]
  rw [hfields.1, hfields.2.1, hfields.2.2, hati', htok', hrb']
  rw [show concatLen ([] : List GoStr) = 0 from rfl]
  rw [Nat.add_zero, ite_lt_one_max]

theorem c5_output_tokens_floor_witness :
    (∀ c ∈ [goStr "hello"], '<' ∉ c)
    ∧ (runAll (goStr "m") 7 ([goStr "hello"].map fun c =>
        (goStr "assistantResponseEvent",
         GoValue.obj [(goStr "content", GoValue.str c)]))).getLast?
      = some (SSE.messageStop 7
          (max 1 (([goStr "hello"].map List.length).sum / 4)) none) :=
  ⟨by decide, c5_output_tokens_floor (goStr "m") 7 [goStr "hello"] (by decide)⟩
